import Mathlib

/-!
Shallow embedding of the Woodpeckers core reactor (src/Sources/EventLoop.c,
the kqueue implementation) together with proofs about its behaviour.

Modelling conventions:
- Machine integers: EventID (uint16_t) is a Nat; the only place the C code
  does wrapping arithmetic on one is the peer-id counter, modelled with
  explicit % 65536.  File descriptors are Int with -1 as the sentinel.
- Heap: Event records are calloc-ed and referenced by pointer; the model
  keeps a store (List Event) and uses store indices as addresses.  The C
  code never frees an Event record (EventDestroy only closes descriptors
  and buffers), so addresses stay valid for the whole run, exactly as the
  deferred-free protocol requires.
- The four registries are slot arrays of pointers grown 5 at a time with
  NULL holes reused; modelled as List (Option Nat) plus the separate count
  field the C code maintains.
- OS calls (socket, accept, read, kevent, ...) are nondeterministic; each
  operation takes the results it consumes as explicit oracle arguments.
- Observable side effects (descriptor open/close, kqueue changes, user
  callback invocations, error logs) are collected in a trace list.
- User callbacks are opaque: invoking one is recorded as a trace effect.
  Informative LogD/LogI lines are not modelled; error/warning logs are.
-/

namespace Woodpeckers

/-- EventID is uint16_t in EventLoop.h. -/
abbrev EventID := Nat

/-- INTERNAL_EVENT_ID is UINT16_MAX, the reserved stop wakeup id. -/
def INTERNAL_EVENT_ID : EventID := 65535

/-- EventType from EventLoop.c. -/
inductive EventType where
  | unknown
  | server
  | serverPeer
  | timer
  | user
deriving DecidableEq, Repr, Inhabited

/-- One Event record (struct _Event).  The union payload is flattened:
the server fd and the serverPeer fd occupy the same first union slot in C
(EventDestroy reads event->server.fd for a serverPeer), so a single fd
field models both.  Callback pointers are modelled by presence flags. -/
structure Event where
  type : EventType
  id : EventID
  isActive : Bool
  fd : Int := -1
  serverID : EventID := 0
  receiveBufferSize : Nat := 0
  sendBufferSize : Nat := 0
  didAccept : Bool := false
  shouldAccept : Bool := false
  didReceiveData : Bool := false
  peerDidDisconnect : Bool := false
  timerFired : Bool := false
  userEventFired : Bool := false
deriving DecidableEq, Repr

/-- The record an invalid pointer dereference would read; never reached on
well-formed states, present only to keep the store lookup total. -/
def Event.null : Event :=
  { type := .unknown, id := 0, isActive := false }

instance : Inhabited Event := ⟨Event.null⟩

/-- kqueue filters used by the code. -/
inductive Filter where
  | read
  | write
  | timer
  | user
deriving DecidableEq, Repr

/-- A user-callback invocation, recorded as an observable effect. -/
inductive Callback where
  | shouldAccept (serverID : EventID)
  | didAccept (serverID peerID : EventID)
  | didReceiveData (serverID peerID : EventID) (len : Nat)
  | peerDidDisconnect (serverID peerID : EventID)
  | timerFired (id : EventID)
  | userEventFired (id : EventID)
deriving DecidableEq, Repr

/-- Observable side effects of the reactor operations. -/
inductive Effect where
  | openFD (fd : Int)
  | closeFD (fd : Int)
  | kqueueAdd (ident : Int) (filter : Filter)
  | kqueueDelete (ident : Int) (filter : Filter)
  | kqueueClear (ident : Int)
  | kqueueTrigger (ident : Int)
  | invoke (cb : Callback)
  | logged
deriving DecidableEq, Repr

/-- struct _EventLoop: the kqueue fd, the run flag, the peer-id counter,
the four registries (slot array plus count; the size field of the C code
is the length of the list), the deferred-free list and the record store. -/
structure EventLoop where
  kqueueFD : Int
  keepRunning : Bool
  nextID : EventID
  serverEvents : List (Option Nat)
  serverEventsCount : Nat
  serverPeerEvents : List (Option Nat)
  serverPeerEventsCount : Nat
  timerEvents : List (Option Nat)
  timerEventsCount : Nat
  userEvents : List (Option Nat)
  userEventsCount : Nat
  deactivatedEvents : List Nat
  store : List Event
deriving DecidableEq, Repr

/-- Dereference an event pointer. -/
def getEvent (s : EventLoop) (a : Nat) : Event :=
  s.store.getD a Event.null

/-- Write through an event pointer. -/
def setEvent (s : EventLoop) (a : Nat) (e : Event) : EventLoop :=
  { s with store := s.store.set a e }

/-- The registry the switch in EventLoopFindExistingEvent / EventLoopHasEvent
selects for a given type (default case: no events). -/
def eventsFor (s : EventLoop) (t : EventType) : List (Option Nat) :=
  match t with
  | .server => s.serverEvents
  | .serverPeer => s.serverPeerEvents
  | .timer => s.timerEvents
  | .user => s.userEvents
  | .unknown => []

/-- The loop condition event != NULL && event->id == id. -/
def slotMatches (store : List Event) (id : EventID) (slot : Option Nat) : Bool :=
  match slot with
  | none => false
  | some a => (store.getD a Event.null).id == id

/-- EventLoopHasEvent: scan the registry for a non-NULL record with the id. -/
def EventLoopHasEvent (s : EventLoop) (id : EventID) (t : EventType) : Bool :=
  (eventsFor s t).any (slotMatches s.store id)

/-- Helper for EventLoopFindExistingEvent: first matching pointer. -/
def findExistingAux (store : List Event) (id : EventID) :
    List (Option Nat) → Option Nat
  | [] => none
  | slot :: rest =>
    match slot with
    | some a =>
      if (store.getD a Event.null).id == id then some a
      else findExistingAux store id rest
    | none => findExistingAux store id rest

/-- EventLoopFindExistingEvent. -/
def EventLoopFindExistingEvent (s : EventLoop) (id : EventID) (t : EventType) :
    Option Nat :=
  findExistingAux s.store id (eventsFor s t)

/-- EventLoopExpandEvents: grow the slot array by EVENTS_STEP = 5 NULLs. -/
def expandEvents (slots : List (Option Nat)) : List (Option Nat) :=
  slots ++ List.replicate 5 none

/-- The injection loop: place the pointer in the first NULL slot. -/
def injectEventList (a : Nat) : List (Option Nat) → Option (List (Option Nat))
  | [] => none
  | none :: rest => some (some a :: rest)
  | some x :: rest =>
    (injectEventList a rest).map (fun out => some x :: out)

/-- Expand if count has reached size, then inject; returns the new slots and
count, or none when no NULL slot was found (the error-log path). -/
def insertEvent (slots : List (Option Nat)) (count : Nat) (a : Nat) :
    Option (List (Option Nat) × Nat) :=
  let slots2 := if slots.length ≤ count then expandEvents slots else slots
  match injectEventList a slots2 with
  | some slots3 => some (slots3, count + 1)
  | none => none

/-- The removal loop of EventLoopRemoveServer / RemoveTimer / RemoveUserEvent:
NULL the first slot whose record has the id; returns the removed pointer and
the updated slots, or none when the id is absent. -/
def removeEventList (store : List Event) (id : EventID) :
    List (Option Nat) → Option (Nat × List (Option Nat))
  | [] => none
  | slot :: rest =>
    if slotMatches store id slot then some (slot.getD 0, none :: rest)
    else (removeEventList store id rest).map (fun pr => (pr.1, slot :: pr.2))

/-- The removal loop of EventLoopHandleServerPeerDisconnect: NULL the first
slot equal to the given pointer. -/
def removePointerList (a : Nat) : List (Option Nat) → Option (List (Option Nat))
  | [] => none
  | slot :: rest =>
    if slot == some a then some (none :: rest)
    else (removePointerList a rest).map (fun out => slot :: out)

/-- EventDestroy: close the owned descriptor (guarded by the -1 sentinel,
written back before closing) and release the peer buffers.  Timer and user
records own nothing on the kqueue target. -/
def EventDestroy (e : Event) : Event × List Effect :=
  match e.type with
  | .server =>
    ({ e with fd := -1 }, if e.fd != -1 then [Effect.closeFD e.fd] else [])
  | .serverPeer =>
    ({ e with fd := -1, receiveBufferSize := 0, sendBufferSize := 0 },
     if e.fd != -1 then [Effect.closeFD e.fd] else [])
  | _ => (e, [])

/-- EventLoopDeactivateEvent: clear isActive and append the pointer to the
deactivated list (the array expansion is not observable). -/
def EventLoopDeactivateEvent (s : EventLoop) (a : Nat) : EventLoop :=
  let s2 := setEvent s a { getEvent s a with isActive := false }
  { s2 with deactivatedEvents := s2.deactivatedEvents ++ [a] }

/-- The drain loop body of EventLoopDeactivateEvents: EventDestroy each
listed record in place, in order. -/
def drainEvents (s : EventLoop) : List Nat → EventLoop × List Effect
  | [] => (s, [])
  | a :: rest =>
    let pr := EventDestroy (getEvent s a)
    let rest2 := drainEvents (setEvent s a pr.1) rest
    (rest2.1, pr.2 ++ rest2.2)

/-- EventLoopDeactivateEvents: destroy every deferred record, then reset the
list. -/
def EventLoopDeactivateEvents (s : EventLoop) : EventLoop × List Effect :=
  let pr := drainEvents s s.deactivatedEvents
  ({ pr.1 with deactivatedEvents := [] }, pr.2)

/-- EventLoopServerDescriptor (callback pointers as presence flags). -/
structure ServerDescriptor where
  id : EventID
  port : Nat
  didAccept : Bool := false
  shouldAccept : Bool := false
  didReceiveData : Bool := false
  peerDidDisconnect : Bool := false
deriving DecidableEq, Repr

/-- Oracle results for the OS calls EventLoopAddServer makes. -/
structure AddServerOS where
  socketFD : Int
  fcntlOk : Bool := true
  bindOk : Bool := true
  listenOk : Bool := true
  keventOk : Bool := true
deriving DecidableEq, Repr

/-- EventLoopAddServer.  The error label destroys the partially built event
(EventDestroy closes its fd) and then closes the raw fd again when it is
not -1, so on the post-build failure paths the socket is closed twice. -/
def EventLoopAddServer (s : EventLoop) (d : ServerDescriptor) (os : AddServerOS) :
    EventLoop × List Effect :=
  if EventLoopHasEvent s d.id .server then
    (s, [Effect.logged])
  else if os.socketFD == -1 then
    (s, [Effect.logged])
  else
    let fd := os.socketFD
    if !os.fcntlOk then (s, [Effect.openFD fd, Effect.logged, Effect.closeFD fd])
    else if !os.bindOk then (s, [Effect.openFD fd, Effect.logged, Effect.closeFD fd])
    else if !os.listenOk then (s, [Effect.openFD fd, Effect.logged, Effect.closeFD fd])
    else
      let event : Event :=
        { type := .server, id := d.id, isActive := true, fd := fd,
          didAccept := d.didAccept, shouldAccept := d.shouldAccept,
          didReceiveData := d.didReceiveData,
          peerDidDisconnect := d.peerDidDisconnect }
      if !os.keventOk then
        (s, [Effect.openFD fd, Effect.logged, Effect.closeFD fd, Effect.closeFD fd])
      else
        match insertEvent s.serverEvents s.serverEventsCount s.store.length with
        | some pr =>
          ({ s with serverEvents := pr.1, serverEventsCount := pr.2,
                    store := s.store ++ [event] },
           [Effect.openFD fd, Effect.kqueueAdd fd .read])
        | none =>
          (s, [Effect.openFD fd, Effect.kqueueAdd fd .read, Effect.logged,
               Effect.closeFD fd, Effect.closeFD fd])

/-- All live peer ids the id-assignment scan can collide with. -/
def anyPeerWithID (s : EventLoop) (id : EventID) : Bool :=
  s.serverPeerEvents.any (slotMatches s.store id)

/-- The peer-id skip-over loop of EventLoopHandleServerEvent, fuelled.  The
C code never resets idTaken inside the while loop, so once a collision is
seen the loop increments nextID forever; that run of the loop is modelled
by returning none for every fuel. -/
def nextPeerIDLoop (s : EventLoop) : EventID → Bool → Nat → Option EventID
  | _, _, 0 => none
  | nextID, idTaken, fuel + 1 =>
    let taken := idTaken || anyPeerWithID s nextID
    if taken then nextPeerIDLoop s ((nextID + 1) % 65536) true fuel
    else some nextID

/-- More fuel than there are distinct uint16 ids; since the loop can only
return on its first iteration, any positive fuel gives the same result. -/
def idLoopFuel : Nat := 65537

/-- Oracle results for the OS calls of the accept path. -/
structure AcceptOS where
  clientFD : Int
  shouldAcceptResult : Bool := true
  fcntlOk : Bool := true
  keventOk : Bool := true
deriving DecidableEq, Repr

/-- The handle_server_event_error label: SAFE_DESTROY(event, EventDestroy)
destroys the record the dispatcher passed in, which is the SERVER record
(the peer under construction is the separate peerEvent variable), then
shuts down and closes the client fd when one was accepted. -/
def handleServerEventError (s : EventLoop) (a : Nat) (clientFD : Int)
    (pre : List Effect) : EventLoop × List Effect :=
  let pr := EventDestroy (getEvent s a)
  (setEvent s a pr.1,
   pre ++ pr.2 ++ (if clientFD != -1 then [Effect.closeFD clientFD] else []))

/-- EventLoopHandleServerEvent: the accept path.  Returns none when the
peer-id loop diverges. -/
def EventLoopHandleServerEvent (s : EventLoop) (a : Nat) (os : AcceptOS) :
    Option (EventLoop × List Effect) :=
  let event := getEvent s a
  if os.clientFD == -1 then
    some (handleServerEventError s a (-1) [Effect.logged])
  else
    let cfd := os.clientFD
    let saEffs :=
      if event.shouldAccept then [Effect.invoke (.shouldAccept event.id)] else []
    let sa := if event.shouldAccept then os.shouldAcceptResult else true
    if !sa then
      some (handleServerEventError s a cfd ([Effect.openFD cfd] ++ saEffs ++ [Effect.logged]))
    else if !os.fcntlOk then
      some (handleServerEventError s a cfd ([Effect.openFD cfd] ++ saEffs ++ [Effect.logged]))
    else
      match nextPeerIDLoop s s.nextID false idLoopFuel with
      | none => none
      | some nid =>
        let peer : Event :=
          { type := .serverPeer, id := nid, isActive := true, fd := cfd,
            serverID := event.id, didReceiveData := event.didReceiveData,
            peerDidDisconnect := event.peerDidDisconnect }
        if !os.keventOk then
          some (handleServerEventError s a cfd ([Effect.openFD cfd] ++ saEffs ++ [Effect.logged]))
        else
          match insertEvent s.serverPeerEvents s.serverPeerEventsCount s.store.length with
          | some pr =>
            let daEffs :=
              if event.didAccept then [Effect.invoke (.didAccept event.id nid)] else []
            some ({ s with serverPeerEvents := pr.1, serverPeerEventsCount := pr.2,
                           store := s.store ++ [peer], nextID := (nid + 1) % 65536 },
                  [Effect.openFD cfd] ++ saEffs ++ [Effect.kqueueAdd cfd .read] ++ daEffs)
          | none =>
            some (handleServerEventError s a cfd
              ([Effect.openFD cfd] ++ saEffs ++ [Effect.kqueueAdd cfd .read] ++ [Effect.logged]))

/-- EventLoopHandleServerPeerDisconnect: drop the peer from the registry
(found by pointer), invoke peerDidDisconnect, defer the record. -/
def EventLoopHandleServerPeerDisconnect (s : EventLoop) (a : Nat) :
    EventLoop × List Effect :=
  let event := getEvent s a
  let found := removePointerList a s.serverPeerEvents
  let s2 :=
    match found with
    | some slots =>
      { s with serverPeerEvents := slots,
               serverPeerEventsCount := s.serverPeerEventsCount - 1 }
    | none => s
  let effs :=
    (match found with | none => [Effect.logged] | some _ => []) ++
    (if event.peerDidDisconnect then
       [Effect.invoke (.peerDidDisconnect event.serverID event.id)]
     else [])
  (EventLoopDeactivateEvent s2 a, effs)

/-- EventLoopHandleServerPeerReadEvent: lazily allocate the 1024-byte
receive buffer, read, and dispatch on the byte count.  A count of zero is
only logged as a warning; no disconnect processing happens. -/
def EventLoopHandleServerPeerReadEvent (s : EventLoop) (a : Nat) (bytesRead : Int) :
    EventLoop × List Effect :=
  let event := getEvent s a
  let event2 :=
    if event.receiveBufferSize == 0 then { event with receiveBufferSize := 1024 }
    else event
  let s2 := setEvent s a event2
  if bytesRead == -1 then (s2, [Effect.logged])
  else if bytesRead > 0 then
    (s2,
     if event2.didReceiveData then
       [Effect.invoke (.didReceiveData event2.serverID event2.id bytesRead.toNat)]
     else [])
  else (s2, [Effect.logged])

/-- EventLoopHandleServerPeerWriteEvent has an empty body. -/
def EventLoopHandleServerPeerWriteEvent (s : EventLoop) (_a : Nat) :
    EventLoop × List Effect :=
  (s, [])

/-- EventLoopHandleTimerEvent: skip deactivated records, else fire. -/
def EventLoopHandleTimerEvent (s : EventLoop) (a : Nat) : EventLoop × List Effect :=
  let event := getEvent s a
  if !event.isActive then (s, [])
  else (s, if event.timerFired then [Effect.invoke (.timerFired event.id)] else [])

/-- EventLoopHandleUserEvent: skip deactivated records, else fire and clear
the trigger (EV_CLEAR resubmission). -/
def EventLoopHandleUserEvent (s : EventLoop) (a : Nat) (clearOk : Bool) :
    EventLoop × List Effect :=
  let event := getEvent s a
  if !event.isActive then (s, [])
  else
    ((s : EventLoop),
     (if event.userEventFired then [Effect.invoke (.userEventFired event.id)] else []) ++
     [Effect.kqueueClear (Int.ofNat event.id)] ++
     (if clearOk then [] else [Effect.logged]))

/-- EventLoopHasServer. -/
def EventLoopHasServer (s : EventLoop) (id : EventID) : Bool :=
  EventLoopHasEvent s id .server

/-- EventLoopRemoveServer: NULL the server slot, close (after shutdown) the
socket of every peer whose serverID matches while leaving those peer
records in the registry, post an EV_DELETE for EVFILT_READ using the
SERVER ID as the kqueue ident, and defer the server record. -/
def peerCloseEffects (s : EventLoop) (serverID : EventID) : List Effect :=
  s.serverPeerEvents.foldl
    (fun acc slot =>
      match slot with
      | some a =>
        let p := getEvent s a
        if p.serverID == serverID then acc ++ [Effect.closeFD p.fd] else acc
      | none => acc) []

/-- EventLoopRemoveServer (keventOk: result of the EV_DELETE submission). -/
def EventLoopRemoveServer (s : EventLoop) (id : EventID) (keventOk : Bool) :
    EventLoop × List Effect :=
  match removeEventList s.store id s.serverEvents with
  | none => (s, [Effect.logged])
  | some pr =>
    let a := pr.1
    let s2 := { s with serverEvents := pr.2,
                       serverEventsCount := s.serverEventsCount - 1 }
    let event := getEvent s2 a
    let pEffs := peerCloseEffects s2 event.id
    (EventLoopDeactivateEvent s2 a,
     pEffs ++ [Effect.kqueueDelete (Int.ofNat id) .read] ++
     (if keventOk then [] else [Effect.logged]))

/-- EventLoopAddTimer (the interval only reaches the kqueue data field). -/
def EventLoopAddTimer (s : EventLoop) (id : EventID) (_timeout : Nat)
    (callback : Bool) (keventOk : Bool) : EventLoop × List Effect :=
  if EventLoopHasEvent s id .timer then (s, [Effect.logged])
  else if !keventOk then (s, [Effect.logged])
  else
    let event : Event :=
      { type := .timer, id := id, isActive := true, timerFired := callback }
    match insertEvent s.timerEvents s.timerEventsCount s.store.length with
    | some pr =>
      ({ s with timerEvents := pr.1, timerEventsCount := pr.2,
                store := s.store ++ [event] },
       [Effect.kqueueAdd (Int.ofNat id) .timer])
    | none => (s, [Effect.kqueueAdd (Int.ofNat id) .timer, Effect.logged])

/-- EventLoopHasTimer. -/
def EventLoopHasTimer (s : EventLoop) (id : EventID) : Bool :=
  EventLoopHasEvent s id .timer

/-- EventLoopRemoveTimer: NULL the slot, post the EV_DELETE, defer. -/
def EventLoopRemoveTimer (s : EventLoop) (id : EventID) (keventOk : Bool) :
    EventLoop × List Effect :=
  match removeEventList s.store id s.timerEvents with
  | none => (s, [Effect.logged])
  | some pr =>
    let s2 := { s with timerEvents := pr.2,
                       timerEventsCount := s.timerEventsCount - 1 }
    (EventLoopDeactivateEvent s2 pr.1,
     [Effect.kqueueDelete (Int.ofNat id) .timer] ++
     (if keventOk then [] else [Effect.logged]))

/-- EventLoopAddUserEvent.  On kevent failure the C code returns directly,
leaking the unregistered record; observably the state is unchanged. -/
def EventLoopAddUserEvent (s : EventLoop) (id : EventID) (callback : Bool)
    (keventOk : Bool) : EventLoop × List Effect :=
  if EventLoopHasEvent s id .user then (s, [Effect.logged])
  else if !keventOk then (s, [Effect.logged])
  else
    let event : Event :=
      { type := .user, id := id, isActive := true, userEventFired := callback }
    match insertEvent s.userEvents s.userEventsCount s.store.length with
    | some pr =>
      ({ s with userEvents := pr.1, userEventsCount := pr.2,
                store := s.store ++ [event] },
       [Effect.kqueueAdd (Int.ofNat id) .user])
    | none => (s, [Effect.kqueueAdd (Int.ofNat id) .user, Effect.logged])

/-- EventLoopHasUserEvent. -/
def EventLoopHasUserEvent (s : EventLoop) (id : EventID) : Bool :=
  EventLoopHasEvent s id .user

/-- EventLoopRemoveUserEvent. -/
def EventLoopRemoveUserEvent (s : EventLoop) (id : EventID) (keventOk : Bool) :
    EventLoop × List Effect :=
  match removeEventList s.store id s.userEvents with
  | none => (s, [Effect.logged])
  | some pr =>
    let s2 := { s with userEvents := pr.2,
                       userEventsCount := s.userEventsCount - 1 }
    (EventLoopDeactivateEvent s2 pr.1,
     [Effect.kqueueDelete (Int.ofNat id) .user] ++
     (if keventOk then [] else [Effect.logged]))

/-- EventLoopTriggerUserEvent: look the record up; absent ids only log. -/
def EventLoopTriggerUserEvent (s : EventLoop) (id : EventID) (keventOk : Bool) :
    EventLoop × List Effect :=
  match EventLoopFindExistingEvent s id .user with
  | none => (s, [Effect.logged])
  | some _ =>
    (s, [Effect.kqueueTrigger (Int.ofNat id)] ++
        (if keventOk then [] else [Effect.logged]))

/-- One slot event returned by the kqueue wait: filter, EV_EOF flag, and
the udata pointer attached at registration. -/
structure KEvent where
  filter : Filter
  eof : Bool
  udata : Nat
deriving DecidableEq, Repr

/-- Oracle results consumed while dispatching one slot event. -/
structure SlotOS where
  acceptOS : AcceptOS := { clientFD := -1 }
  bytesRead : Int := -1
  clearOk : Bool := true
deriving DecidableEq, Repr

/-- The dispatch switch of EventLoopRunOnce for one slot event. -/
def dispatchKEvent (s : EventLoop) (ke : KEvent) (os : SlotOS) :
    Option (EventLoop × List Effect) :=
  let event := getEvent s ke.udata
  match ke.filter with
  | .read =>
    if event.type == .server then
      EventLoopHandleServerEvent s ke.udata os.acceptOS
    else if event.type == .serverPeer then
      if ke.eof then some (EventLoopHandleServerPeerDisconnect s ke.udata)
      else some (EventLoopHandleServerPeerReadEvent s ke.udata os.bytesRead)
    else some (s, [Effect.logged])
  | .write =>
    if event.type == .serverPeer then
      if ke.eof then some (EventLoopHandleServerPeerDisconnect s ke.udata)
      else some (EventLoopHandleServerPeerWriteEvent s ke.udata)
    else some (s, [Effect.logged])
  | .timer => some (EventLoopHandleTimerEvent s ke.udata)
  | .user => some (EventLoopHandleUserEvent s ke.udata os.clearOk)

/-- Dispatch a batch in order, threading the state. -/
def dispatchBatch (s : EventLoop) : List (KEvent × SlotOS) →
    Option (EventLoop × List Effect)
  | [] => some (s, [])
  | p :: rest =>
    match dispatchKEvent s p.1 p.2 with
    | none => none
    | some pr =>
      match dispatchBatch pr.1 rest with
      | none => none
      | some pr2 => some (pr2.1, pr.2 ++ pr2.2)

/-- EventLoopRunOnce: a failed wait logs and returns without draining;
otherwise dispatch the batch and drain the deferred-free list. -/
def EventLoopRunOnce (s : EventLoop) (waitOk : Bool)
    (batch : List (KEvent × SlotOS)) : Option (EventLoop × List Effect) :=
  if !waitOk then some (s, [Effect.logged])
  else
    match dispatchBatch s batch with
    | none => none
    | some pr =>
      let pr2 := EventLoopDeactivateEvents pr.1
      some (pr2.1, pr.2 ++ pr2.2)

/-- The freshly calloc-ed EventLoop before the stop event registration. -/
def emptyEventLoop (kqueueFD : Int) : EventLoop :=
  { kqueueFD := kqueueFD, keepRunning := false, nextID := 0,
    serverEvents := [], serverEventsCount := 0,
    serverPeerEvents := [], serverPeerEventsCount := 0,
    timerEvents := [], timerEventsCount := 0,
    userEvents := [], userEventsCount := 0,
    deactivatedEvents := [], store := [] }

/-- EventLoopCreate: the kqueue() result is stored UNCHECKED, then the
internal stop user event is registered (whose kevent call fails when the
kqueue fd is -1).  An EventLoop value is returned on every path. -/
def EventLoopCreate (kqueueResult : Int) : EventLoop × List Effect :=
  EventLoopAddUserEvent (emptyEventLoop kqueueResult) INTERNAL_EVENT_ID true
    (kqueueResult != -1)

/-- The per-registry loop of EventLoopDestroy: EventDestroy every non-NULL
record (effects only; the records are then freed). -/
def destroyRegistryEffects (store : List Event) (slots : List (Option Nat)) :
    List Effect :=
  slots.foldl
    (fun acc slot =>
      match slot with
      | some a => acc ++ (EventDestroy (store.getD a Event.null)).2
      | none => acc) []

/-- EventLoopDestroy walks the server, timer and user registries and closes
the kqueue fd.  The serverPeerEvents registry and the deactivatedEvents
list are NOT visited, exactly as in the C code. -/
def EventLoopDestroy (s : EventLoop) : List Effect :=
  destroyRegistryEffects s.store s.serverEvents ++
  destroyRegistryEffects s.store s.timerEvents ++
  destroyRegistryEffects s.store s.userEvents ++
  (if s.kqueueFD != -1 then [Effect.closeFD s.kqueueFD] else [])

/-- One API call on the reactor together with the OS results it consumes
(the callable surface the claims quantify over). -/
inductive Op where
  | addServer (d : ServerDescriptor) (os : AddServerOS)
  | removeServer (id : EventID) (keventOk : Bool)
  | addTimer (id : EventID) (timeout : Nat) (cb : Bool) (keventOk : Bool)
  | removeTimer (id : EventID) (keventOk : Bool)
  | addUser (id : EventID) (cb : Bool) (keventOk : Bool)
  | removeUser (id : EventID) (keventOk : Bool)
  | triggerUser (id : EventID) (keventOk : Bool)
  | runOnce (waitOk : Bool) (batch : List (KEvent × SlotOS))
deriving Repr

/-- Execute one API call; none models the nonterminating accept path. -/
def step (s : EventLoop) : Op → Option (EventLoop × List Effect)
  | .addServer d os => some (EventLoopAddServer s d os)
  | .removeServer id ok => some (EventLoopRemoveServer s id ok)
  | .addTimer id t cb ok => some (EventLoopAddTimer s id t cb ok)
  | .removeTimer id ok => some (EventLoopRemoveTimer s id ok)
  | .addUser id cb ok => some (EventLoopAddUserEvent s id cb ok)
  | .removeUser id ok => some (EventLoopRemoveUserEvent s id ok)
  | .triggerUser id ok => some (EventLoopTriggerUserEvent s id ok)
  | .runOnce w b => EventLoopRunOnce s w b

/-- Run a sequence of API calls. -/
def runOps (s : EventLoop) : List Op → Option EventLoop
  | [] => some s
  | op :: rest =>
    match step s op with
    | none => none
    | some pr => runOps pr.1 rest

/-- The kind, id and combined OS-success flag of a registration call. -/
def addKind : Op → Option (EventType × EventID × Bool)
  | .addServer d os =>
    some (.server, d.id,
      os.socketFD != -1 && os.fcntlOk && os.bindOk && os.listenOk && os.keventOk)
  | .addTimer id _ _ ok => some (.timer, id, ok)
  | .addUser id _ ok => some (.user, id, ok)
  | _ => none

/-- The kind and id a removal call targets. -/
def removeKind : Op → Option (EventType × EventID)
  | .removeServer id _ => some (.server, id)
  | .removeTimer id _ => some (.timer, id)
  | .removeUser id _ => some (.user, id)
  | _ => none

/-- Specification-level membership transition: a registration whose OS
calls succeed turns membership on, a removal turns it off, and every
other operation leaves it alone. -/
def membershipStep (t : EventType) (i : EventID) (b : Bool) (op : Op) : Bool :=
  match addKind op with
  | some ki => if ki.1 == t && ki.2.1 == i then (b || ki.2.2) else b
  | none =>
    match removeKind op with
    | some ki => if ki.1 == t && ki.2 == i then false else b
    | none => b

/-- Membership after a call sequence, per the specification. -/
def membershipAfter (t : EventType) (i : EventID) (ops : List Op) (b : Bool) : Bool :=
  ops.foldl (membershipStep t i) b

/-- The pointers held by the filled slots of a registry. -/
def slotAddrs (slots : List (Option Nat)) : List Nat :=
  slots.filterMap (fun x => x)

/-- The record ids of the filled slots of a registry. -/
def slotIds (store : List Event) (slots : List (Option Nat)) : List EventID :=
  slots.filterMap (fun slot => slot.map (fun a => (store.getD a Event.null).id))

/-- Well-formedness of one registry: every pointer is a valid store
address, the count matches the number of filled slots, and no two filled
slots carry the same id (duplicate registrations are rejected). -/
def RegistryWF (store : List Event) (slots : List (Option Nat)) (count : Nat) : Prop :=
  (∀ a ∈ slotAddrs slots, a < store.length) ∧
  count = (slotAddrs slots).length ∧
  (slotIds store slots).Nodup

/-- Well-formedness of the reactor state for the three keyed kinds the
membership claims quantify over. -/
def LoopWF (s : EventLoop) : Prop :=
  RegistryWF s.store s.serverEvents s.serverEventsCount ∧
  RegistryWF s.store s.timerEvents s.timerEventsCount ∧
  RegistryWF s.store s.userEvents s.userEventsCount

instance (store : List Event) (slots : List (Option Nat)) (count : Nat) :
    Decidable (RegistryWF store slots count) := by
  unfold RegistryWF; infer_instance

instance (s : EventLoop) : Decidable (LoopWF s) := by
  unfold LoopWF; infer_instance

/-! Basic lemmas about registries. -/

@[simp]
theorem slotAddrs_nil : slotAddrs [] = [] := rfl

@[simp]
theorem slotAddrs_cons_none (rest : List (Option Nat)) :
    slotAddrs (none :: rest) = slotAddrs rest := rfl

@[simp]
theorem slotAddrs_cons_some (a : Nat) (rest : List (Option Nat)) :
    slotAddrs (some a :: rest) = a :: slotAddrs rest := rfl

@[simp]
theorem slotIds_nil (store : List Event) : slotIds store [] = [] := rfl

@[simp]
theorem slotIds_cons_none (store : List Event) (rest : List (Option Nat)) :
    slotIds store (none :: rest) = slotIds store rest := rfl

@[simp]
theorem slotIds_cons_some (store : List Event) (a : Nat) (rest : List (Option Nat)) :
    slotIds store (some a :: rest) =
      (store.getD a Event.null).id :: slotIds store rest := rfl

theorem slotAddrs_append (l1 l2 : List (Option Nat)) :
    slotAddrs (l1 ++ l2) = slotAddrs l1 ++ slotAddrs l2 :=
  List.filterMap_append l1 l2 _

theorem slotIds_append (store : List Event) (l1 l2 : List (Option Nat)) :
    slotIds store (l1 ++ l2) = slotIds store l1 ++ slotIds store l2 :=
  List.filterMap_append l1 l2 _

theorem slotIds_length (store : List Event) (slots : List (Option Nat)) :
    (slotIds store slots).length = (slotAddrs slots).length := by
  induction slots with
  | nil => rfl
  | cons slot rest ih =>
    cases slot with
    | none => simpa using ih
    | some a => simpa using ih

/-- Membership in a registry is membership of the id among the filled
slots' record ids. -/
theorem any_slotMatches_iff (store : List Event) (i : EventID)
    (slots : List (Option Nat)) :
    slots.any (slotMatches store i) = true ↔ i ∈ slotIds store slots := by
  induction slots with
  | nil => simp [slotIds]
  | cons slot rest ih =>
    cases slot with
    | none => simpa [slotMatches] using ih
    | some a =>
      simp only [List.any_cons, slotIds_cons_some, List.mem_cons, Bool.or_eq_true, ih,
        slotMatches]
      constructor
      · rintro (h | h)
        · exact Or.inl (beq_iff_eq.mp h).symm
        · exact Or.inr h
      · rintro (h | h)
        · exact Or.inl (beq_iff_eq.mpr h.symm)
        · exact Or.inr h

theorem hasEvent_iff (s : EventLoop) (i : EventID) (t : EventType) :
    EventLoopHasEvent s i t = true ↔ i ∈ slotIds s.store (eventsFor s t) :=
  any_slotMatches_iff s.store i (eventsFor s t)

/-- Scanning a registry is insensitive to store changes that preserve the
ids of the records the registry points to. -/
theorem slotIds_congr (store1 store2 : List Event) (slots : List (Option Nat))
    (h : ∀ a ∈ slotAddrs slots,
      (store2.getD a Event.null).id = (store1.getD a Event.null).id) :
    slotIds store2 slots = slotIds store1 slots := by
  induction slots with
  | nil => rfl
  | cons slot rest ih =>
    cases slot with
    | none =>
      simpa using ih (fun a ha => h a (by simpa using ha))
    | some a =>
      have hh := h a (by simp)
      simp only [slotIds_cons_some, hh]
      exact congrArg _ (ih (fun b hb => h b (by simp [hb])))

theorem any_slotMatches_congr (store1 store2 : List Event)
    (slots : List (Option Nat))
    (h : ∀ a ∈ slotAddrs slots,
      (store2.getD a Event.null).id = (store1.getD a Event.null).id)
    (i : EventID) :
    slots.any (slotMatches store2 i) = slots.any (slotMatches store1 i) := by
  have h2 := slotIds_congr store1 store2 slots h
  by_cases hm : i ∈ slotIds store1 slots
  · rw [(any_slotMatches_iff store2 i slots).mpr (h2 ▸ hm),
      (any_slotMatches_iff store1 i slots).mpr hm]
  · have n2 : ¬ (slots.any (slotMatches store2 i) = true) := fun hc =>
      hm (h2 ▸ (any_slotMatches_iff store2 i slots).mp hc)
    have n1 : ¬ (slots.any (slotMatches store1 i) = true) := fun hc =>
      hm ((any_slotMatches_iff store1 i slots).mp hc)
    rw [Bool.eq_false_iff.mpr n2, Bool.eq_false_iff.mpr n1]

/-- Writing a record that keeps its id preserves every id the store serves. -/
theorem getD_set_id (store : List Event) (a : Nat) (e2 : Event)
    (h : e2.id = (store.getD a Event.null).id) (b : Nat) :
    ((store.set a e2).getD b Event.null).id = (store.getD b Event.null).id := by
  induction store generalizing a b with
  | nil => simp [List.set]
  | cons x xs ih =>
    cases a with
    | zero =>
      cases b with
      | zero => simpa [List.getD] using h
      | succ b => simp [List.set, List.getD]
    | succ a =>
      cases b with
      | zero => simp [List.set, List.getD]
      | succ b =>
        simpa [List.set, List.getD] using ih a (by simpa [List.getD] using h) b

/-- Appending records preserves lookups below the old length. -/
theorem getD_append_lt (store l : List Event) (b : Nat) (h : b < store.length) :
    (store ++ l).getD b Event.null = store.getD b Event.null := by
  induction store generalizing b with
  | nil => exact absurd h (by simp)
  | cons x xs ih =>
    cases b with
    | zero => simp [List.getD]
    | succ b =>
      simpa [List.getD] using ih b (by simpa using Nat.lt_of_succ_lt_succ h)

/-! Structural decompositions of the slot loops. -/

/-- The injection loop replaces the first NULL slot. -/
theorem injectEventList_decomp (a : Nat) (slots out : List (Option Nat))
    (h : injectEventList a slots = some out) :
    ∃ pre post, slots = pre ++ none :: post ∧ out = pre ++ some a :: post ∧
      none ∉ pre := by
  induction slots generalizing out with
  | nil => simp [injectEventList] at h
  | cons slot rest ih =>
    cases slot with
    | none =>
      refine ⟨[], rest, rfl, ?_, by simp⟩
      simpa [injectEventList] using h.symm
    | some x =>
      simp only [injectEventList, Option.map_eq_some'] at h
      obtain ⟨out2, h2, rfl⟩ := h
      obtain ⟨pre, post, hs, ho, hp⟩ := ih out2 h2
      exact ⟨some x :: pre, post, by simp [hs], by simp [ho], by simp [hp]⟩

/-- The injection loop succeeds whenever a NULL slot exists. -/
theorem injectEventList_isSome (a : Nat) (slots : List (Option Nat))
    (h : none ∈ slots) : (injectEventList a slots).isSome = true := by
  induction slots with
  | nil => simp at h
  | cons slot rest ih =>
    cases slot with
    | none => simp [injectEventList]
    | some x =>
      have : none ∈ rest := by simpa using h
      have h2 := ih this
      cases hi : injectEventList a rest with
      | none => rw [hi] at h2; simp at h2
      | some out => simp [injectEventList, hi]

/-- The id-keyed removal loop NULLs the first slot matching the id and
touches nothing else. -/
theorem removeEventList_decomp (store : List Event) (id : EventID)
    (slots : List (Option Nat)) (a : Nat) (out : List (Option Nat))
    (h : removeEventList store id slots = some (a, out)) :
    ∃ pre post, slots = pre ++ some a :: post ∧ out = pre ++ none :: post ∧
      (∀ slot ∈ pre, slotMatches store id slot = false) ∧
      (store.getD a Event.null).id = id := by
  induction slots generalizing a out with
  | nil => simp [removeEventList] at h
  | cons slot rest ih =>
    by_cases hm : slotMatches store id slot = true
    · rw [removeEventList, if_pos hm] at h
      cases slot with
      | none => simp [slotMatches] at hm
      | some b =>
        simp only [Option.some_inj, Prod.mk.injEq] at h
        obtain ⟨ha, ho⟩ := h
        have hb : b = a := by simpa [Option.getD] using ha
        subst hb
        refine ⟨[], rest, rfl, by simp [ho.symm], by simp, ?_⟩
        simpa [slotMatches] using hm
    · rw [removeEventList, if_neg hm] at h
      simp only [Option.map_eq_some'] at h
      obtain ⟨pr, h2, h3⟩ := h
      rw [Prod.ext_iff] at h3
      obtain ⟨h31, h32⟩ := h3
      simp only [] at h31 h32
      obtain ⟨pre, post, hs, ho, hp, hid⟩ := ih pr.1 pr.2 h2
      refine ⟨slot :: pre, post, by simp [hs, h31.symm], ?_, ?_, h31 ▸ hid⟩
      · rw [← h32]
        simp [ho]
      · intro sl hsl
        rcases List.mem_cons.mp hsl with h4 | h4
        · exact h4 ▸ Bool.eq_false_iff.mpr hm
        · exact hp sl h4

/-- The id-keyed removal loop fails exactly on absent ids. -/
theorem removeEventList_none_iff (store : List Event) (id : EventID)
    (slots : List (Option Nat)) :
    removeEventList store id slots = none ↔
      slots.any (slotMatches store id) = false := by
  induction slots with
  | nil => simp [removeEventList]
  | cons slot rest ih =>
    by_cases hm : slotMatches store id slot = true
    · simp [removeEventList, hm]
    · have hm2 : slotMatches store id slot = false := Bool.eq_false_iff.mpr hm
      simp [removeEventList, hm2, ih]

/-- The pointer-keyed removal loop NULLs the first slot equal to the
pointer. -/
theorem removePointerList_decomp (a : Nat) (slots out : List (Option Nat))
    (h : removePointerList a slots = some out) :
    ∃ pre post, slots = pre ++ some a :: post ∧ out = pre ++ none :: post ∧
      some a ∉ pre := by
  induction slots generalizing out with
  | nil => simp [removePointerList] at h
  | cons slot rest ih =>
    by_cases hm : slot = some a
    · subst hm
      rw [removePointerList, if_pos (by simp)] at h
      exact ⟨[], rest, rfl, by simpa using h.symm, by simp⟩
    · rw [removePointerList, if_neg (by simpa using hm)] at h
      simp only [Option.map_eq_some'] at h
      obtain ⟨out2, h2, rfl⟩ := h
      obtain ⟨pre, post, hs, ho, hp⟩ := ih out2 h2
      refine ⟨slot :: pre, post, by simp [hs], by simp [ho], ?_⟩
      intro hc
      rcases List.mem_cons.mp hc with h4 | h4
      · exact hm h4.symm
      · exact hp h4

/-! Registry well-formedness transport. -/

theorem bool_eq_of_iff {a b : Bool} (h : a = true ↔ b = true) : a = b := by
  cases a <;> cases b <;> simp_all

theorem registryWF_congr (store1 store2 : List Event) (slots : List (Option Nat))
    (count : Nat) (hlen : store1.length ≤ store2.length)
    (hids : ∀ a ∈ slotAddrs slots,
      (store2.getD a Event.null).id = (store1.getD a Event.null).id)
    (h : RegistryWF store1 slots count) : RegistryWF store2 slots count := by
  obtain ⟨h1, h2, h3⟩ := h
  refine ⟨fun a ha => Nat.lt_of_lt_of_le (h1 a ha) hlen, h2, ?_⟩
  rw [slotIds_congr store1 store2 slots hids]
  exact h3

theorem registryWF_set (store : List Event) (a : Nat) (e2 : Event)
    (hid : e2.id = (store.getD a Event.null).id)
    (slots : List (Option Nat)) (count : Nat)
    (h : RegistryWF store slots count) : RegistryWF (store.set a e2) slots count :=
  registryWF_congr store (store.set a e2) slots count (by simp)
    (fun b _ => getD_set_id store a e2 hid b) h

theorem registryWF_append (store l : List Event) (slots : List (Option Nat))
    (count : Nat) (h : RegistryWF store slots count) :
    RegistryWF (store ++ l) slots count :=
  registryWF_congr store (store ++ l) slots count (by simp)
    (fun b hb => by rw [getD_append_lt store l b (h.1 b hb)]) h

/-- Expansion only appends NULL slots. -/
theorem slotAddrs_expand (slots : List (Option Nat)) :
    slotAddrs (expandEvents slots) = slotAddrs slots := by
  rw [expandEvents, slotAddrs_append]
  have : slotAddrs (List.replicate 5 (none : Option Nat)) = [] := rfl
  rw [this, List.append_nil]

theorem slotIds_expand (store : List Event) (slots : List (Option Nat)) :
    slotIds store (expandEvents slots) = slotIds store slots := by
  rw [expandEvents, slotIds_append]
  have : slotIds store (List.replicate 5 (none : Option Nat)) = [] := rfl
  rw [this, List.append_nil]

/-- A registry with fewer records than slots has a NULL slot. -/
theorem mem_none_of_count_lt (slots : List (Option Nat))
    (h : (slotAddrs slots).length < slots.length) : none ∈ slots := by
  induction slots with
  | nil => simp at h
  | cons slot rest ih =>
    cases slot with
    | none => simp
    | some a =>
      simp only [slotAddrs_cons_some, List.length_cons] at h
      exact List.mem_cons_of_mem _ (ih (Nat.lt_of_succ_lt_succ h))

/-- getD at the old length after appending one record. -/
theorem getD_append_self (store : List Event) (e : Event) :
    (store ++ [e]).getD store.length Event.null = e := by
  induction store with
  | nil => rfl
  | cons x xs ih => simp [List.getD]

/-- Successful registration: under well-formedness the injection always
finds a slot, and the registry extended with the fresh record (appended to
the store) is well-formed; membership gains exactly the new id. -/
theorem insertEvent_spec (store : List Event) (slots : List (Option Nat))
    (count : Nat) (e : Event) (hWF : RegistryWF store slots count)
    (hnew : e.id ∉ slotIds store slots) :
    ∃ out, insertEvent slots count store.length = some (out, count + 1) ∧
      RegistryWF (store ++ [e]) out (count + 1) ∧
      (∀ i, out.any (slotMatches (store ++ [e]) i) =
        ((e.id == i) || slots.any (slotMatches store i))) := by
  obtain ⟨haddr, hcount, hnodup⟩ := hWF
  -- the slot array scanned after the conditional expansion
  set slots0 := if slots.length ≤ count then expandEvents slots else slots with hs0
  have h0addr : slotAddrs slots0 = slotAddrs slots := by
    rw [hs0]; split
    · exact slotAddrs_expand slots
    · rfl
  have h0ids : slotIds store slots0 = slotIds store slots := by
    rw [hs0]; split
    · exact slotIds_expand store slots
    · rfl
  have hnone : none ∈ slots0 := by
    rw [hs0]; split
    · exact List.mem_append_right _ (by simp [List.mem_replicate])
    · next hgt =>
      refine mem_none_of_count_lt slots ?_
      omega
  have hsome := injectEventList_isSome store.length slots0 hnone
  cases hinj : injectEventList store.length slots0 with
  | none => rw [hinj] at hsome; simp at hsome
  | some out =>
    obtain ⟨pre, post, hdec, hout, _⟩ := injectEventList_decomp _ _ _ hinj
    have hgoal : insertEvent slots count store.length = some (out, count + 1) := by
      rw [insertEvent, ← hs0, hinj]
    -- transported facts about the decomposition
    have haddrs_out : slotAddrs out = slotAddrs pre ++ store.length :: slotAddrs post := by
      rw [hout, slotAddrs_append, slotAddrs_cons_some]
    have haddrs_slots : slotAddrs slots = slotAddrs pre ++ slotAddrs post := by
      rw [← h0addr, hdec, slotAddrs_append, slotAddrs_cons_none]
    have hids_pre : slotIds (store ++ [e]) pre = slotIds store pre := by
      refine slotIds_congr store (store ++ [e]) pre (fun b hb => ?_)
      refine congrArg Event.id (getD_append_lt store [e] b (haddr b ?_))
      rw [haddrs_slots]; exact List.mem_append_left _ hb
    have hids_post : slotIds (store ++ [e]) post = slotIds store post := by
      refine slotIds_congr store (store ++ [e]) post (fun b hb => ?_)
      refine congrArg Event.id (getD_append_lt store [e] b (haddr b ?_))
      rw [haddrs_slots]; exact List.mem_append_right _ hb
    have hids_out : slotIds (store ++ [e]) out =
        slotIds store pre ++ e.id :: slotIds store post := by
      rw [hout, slotIds_append, slotIds_cons_some, getD_append_self, hids_pre, hids_post]
    have hids_slots : slotIds store slots = slotIds store pre ++ slotIds store post := by
      rw [← h0ids, hdec, slotIds_append, slotIds_cons_none]
    refine ⟨out, hgoal, ⟨?_, ?_, ?_⟩, ?_⟩
    · -- address bounds
      intro b hb
      rw [haddrs_out] at hb
      rcases List.mem_append.mp hb with hb | hb
      · have : b ∈ slotAddrs slots := by
          rw [haddrs_slots]; exact List.mem_append_left _ hb
        simpa using Nat.lt_succ_of_lt (haddr b this)
      · rcases List.mem_cons.mp hb with hb | hb
        · subst hb; simp
        · have : b ∈ slotAddrs slots := by
            rw [haddrs_slots]; exact List.mem_append_right _ hb
          simpa using Nat.lt_succ_of_lt (haddr b this)
    · -- count
      rw [haddrs_out]
      rw [haddrs_slots] at hcount
      simp only [List.length_append, List.length_cons] at hcount ⊢
      omega
    · -- no duplicate ids
      rw [hids_out]
      rw [hids_slots] at hnodup hnew
      exact List.nodup_middle.mpr (by
        refine List.Nodup.cons ?_ hnodup
        simpa using hnew)
    · -- membership
      intro i
      refine bool_eq_of_iff ?_
      rw [any_slotMatches_iff, hids_out]
      have hrhs : ((e.id == i) || slots.any (slotMatches store i)) = true ↔
          (e.id = i ∨ i ∈ slotIds store pre ++ slotIds store post) := by
        rw [Bool.or_eq_true, beq_iff_eq, any_slotMatches_iff, hids_slots]
      rw [hrhs]
      simp only [List.mem_append, List.mem_cons]
      tauto

/-- Successful removal: the registry stays well-formed with one fewer
record, the removed pointer carried the requested id, and membership loses
exactly that id (uniqueness makes the removal complete). -/
theorem removeEventList_spec (store : List Event) (slots : List (Option Nat))
    (count : Nat) (id : EventID) (a : Nat) (out : List (Option Nat))
    (hWF : RegistryWF store slots count)
    (h : removeEventList store id slots = some (a, out)) :
    RegistryWF store out (count - 1) ∧
    (store.getD a Event.null).id = id ∧
    a ∈ slotAddrs slots ∧
    (∀ i, out.any (slotMatches store i) =
      (decide (i ≠ id) && slots.any (slotMatches store i))) := by
  obtain ⟨haddr, hcount, hnodup⟩ := hWF
  obtain ⟨pre, post, hdec, hout, _, hid⟩ := removeEventList_decomp store id slots a out h
  have haddrs_slots : slotAddrs slots = slotAddrs pre ++ a :: slotAddrs post := by
    rw [hdec, slotAddrs_append, slotAddrs_cons_some]
  have haddrs_out : slotAddrs out = slotAddrs pre ++ slotAddrs post := by
    rw [hout, slotAddrs_append, slotAddrs_cons_none]
  have hids_slots : slotIds store slots =
      slotIds store pre ++ id :: slotIds store post := by
    rw [hdec, slotIds_append, slotIds_cons_some, hid]
  have hids_out : slotIds store out = slotIds store pre ++ slotIds store post := by
    rw [hout, slotIds_append, slotIds_cons_none]
  have hnodup2 : (id :: (slotIds store pre ++ slotIds store post)).Nodup := by
    rw [hids_slots] at hnodup
    exact List.nodup_middle.mp hnodup
  have hnotmem : id ∉ slotIds store pre ++ slotIds store post :=
    (List.nodup_cons.mp hnodup2).1
  refine ⟨⟨?_, ?_, ?_⟩, hid, ?_, ?_⟩
  · intro b hb
    refine haddr b ?_
    rw [haddrs_slots]
    rw [haddrs_out] at hb
    rcases List.mem_append.mp hb with hb | hb
    · exact List.mem_append_left _ hb
    · exact List.mem_append_right _ (List.mem_cons_of_mem _ hb)
  · rw [haddrs_out]
    rw [haddrs_slots] at hcount
    simp only [List.length_append, List.length_cons] at hcount ⊢
    omega
  · rw [hids_out]
    exact (List.nodup_cons.mp hnodup2).2
  · rw [haddrs_slots]
    exact List.mem_append_right _ (List.mem_cons_self a _)
  · intro i
    refine bool_eq_of_iff ?_
    rw [Bool.and_eq_true, any_slotMatches_iff, any_slotMatches_iff, hids_out, hids_slots]
    constructor
    · intro hmem
      have hne : i ≠ id := fun hc => hnotmem (hc ▸ hmem)
      refine ⟨by simpa using hne, ?_⟩
      rcases List.mem_append.mp hmem with hm2 | hm2
      · exact List.mem_append_left _ hm2
      · exact List.mem_append_right _ (List.mem_cons_of_mem _ hm2)
    · rintro ⟨hne, hmem⟩
      have hne2 : i ≠ id := by simpa using hne
      rcases List.mem_append.mp hmem with hm2 | hm2
      · exact List.mem_append_left _ hm2
      · rcases List.mem_cons.mp hm2 with hm3 | hm3
        · exact absurd hm3 hne2
        · exact List.mem_append_right _ hm3

/-! Preservation of membership and well-formedness by the operations. -/

/-- The kinds the membership claims quantify over. -/
def trackedKind (t : EventType) : Prop :=
  t = .server ∨ t = .timer ∨ t = .user

/-- EventDestroy never changes the record identity. -/
theorem EventDestroy_id (e : Event) : (EventDestroy e).1.id = e.id := by
  cases h : e.type <;> simp [EventDestroy, h]

/-- EventDestroy never changes the record type. -/
theorem EventDestroy_type (e : Event) : (EventDestroy e).1.type = e.type := by
  cases h : e.type <;> simp [EventDestroy, h]

theorem eventsFor_mk (s : EventLoop) (t : EventType) :
    eventsFor s t =
      match t with
      | .server => s.serverEvents
      | .serverPeer => s.serverPeerEvents
      | .timer => s.timerEvents
      | .user => s.userEvents
      | .unknown => [] := rfl

/-- Generic congruence for the membership scan. -/
theorem hasEvent_congr (s s2 : EventLoop) (t : EventType) (i : EventID)
    (hslots : eventsFor s2 t = eventsFor s t)
    (hids : ∀ a ∈ slotAddrs (eventsFor s t),
      (s2.store.getD a Event.null).id = (s.store.getD a Event.null).id) :
    EventLoopHasEvent s2 i t = EventLoopHasEvent s i t := by
  rw [EventLoopHasEvent, EventLoopHasEvent, hslots]
  exact any_slotMatches_congr s.store s2.store (eventsFor s t) hids i

/-- A store write that preserves the id at the written address is invisible
to every membership scan. -/
theorem hasEvent_setEvent (s : EventLoop) (a : Nat) (e2 : Event)
    (hid : e2.id = (getEvent s a).id) (t : EventType) (i : EventID) :
    EventLoopHasEvent (setEvent s a e2) i t = EventLoopHasEvent s i t := by
  refine hasEvent_congr s (setEvent s a e2) t i (by cases t <;> rfl) ?_
  intro b _
  exact getD_set_id s.store a e2 hid b

theorem loopWF_setEvent (s : EventLoop) (a : Nat) (e2 : Event)
    (hid : e2.id = (getEvent s a).id) (h : LoopWF s) : LoopWF (setEvent s a e2) := by
  obtain ⟨h1, h2, h3⟩ := h
  exact ⟨registryWF_set s.store a e2 hid _ _ h1,
    registryWF_set s.store a e2 hid _ _ h2,
    registryWF_set s.store a e2 hid _ _ h3⟩

/-- Deferring a record changes no membership scan. -/
theorem hasEvent_deactivate (s : EventLoop) (a : Nat) (t : EventType) (i : EventID) :
    EventLoopHasEvent (EventLoopDeactivateEvent s a) i t = EventLoopHasEvent s i t := by
  refine hasEvent_congr s (EventLoopDeactivateEvent s a) t i (by cases t <;> rfl) ?_
  intro b _
  exact getD_set_id s.store a { getEvent s a with isActive := false } rfl b

theorem loopWF_deactivate (s : EventLoop) (a : Nat) (h : LoopWF s) :
    LoopWF (EventLoopDeactivateEvent s a) := by
  have h2 := loopWF_setEvent s a { getEvent s a with isActive := false } rfl h
  exact h2

/-! Unfoldings of the specification-level membership transition. -/

theorem membershipStep_addTimer (t : EventType) (i : EventID) (b : Bool)
    (id : EventID) (tmo : Nat) (cb ok : Bool) :
    membershipStep t i b (.addTimer id tmo cb ok) =
      if t = .timer ∧ i = id then b || ok else b := by
  simp only [membershipStep, addKind]
  by_cases h1 : t = .timer
  · subst h1
    by_cases h2 : i = id
    · subst h2; simp
    · have hne : (id == i) = false := beq_eq_false_iff_ne.mpr (fun hc => h2 hc.symm)
      simp [hne, h2]
  · have : (EventType.timer == t) = false := by
      cases t <;> simp_all
    simp [this, h1]

theorem membershipStep_addUser (t : EventType) (i : EventID) (b : Bool)
    (id : EventID) (cb ok : Bool) :
    membershipStep t i b (.addUser id cb ok) =
      if t = .user ∧ i = id then b || ok else b := by
  simp only [membershipStep, addKind]
  by_cases h1 : t = .user
  · subst h1
    by_cases h2 : i = id
    · subst h2; simp
    · have hne : (id == i) = false := beq_eq_false_iff_ne.mpr (fun hc => h2 hc.symm)
      simp [hne, h2]
  · have : (EventType.user == t) = false := by
      cases t <;> simp_all
    simp [this, h1]

theorem membershipStep_addServer (t : EventType) (i : EventID) (b : Bool)
    (d : ServerDescriptor) (os : AddServerOS) :
    membershipStep t i b (.addServer d os) =
      if t = .server ∧ i = d.id then
        b || (os.socketFD != -1 && os.fcntlOk && os.bindOk && os.listenOk && os.keventOk)
      else b := by
  simp only [membershipStep, addKind]
  by_cases h1 : t = .server
  · subst h1
    by_cases h2 : i = d.id
    · subst h2; simp
    · have hne : (d.id == i) = false := beq_eq_false_iff_ne.mpr (fun hc => h2 hc.symm)
      simp [hne, h2]
  · have : (EventType.server == t) = false := by
      cases t <;> simp_all
    simp [this, h1]

theorem membershipStep_removeTimer (t : EventType) (i : EventID) (b : Bool)
    (id : EventID) (ok : Bool) :
    membershipStep t i b (.removeTimer id ok) =
      if t = .timer ∧ i = id then false else b := by
  simp only [membershipStep, addKind, removeKind]
  by_cases h1 : t = .timer
  · subst h1
    by_cases h2 : i = id
    · subst h2; simp
    · have hne : (id == i) = false := beq_eq_false_iff_ne.mpr (fun hc => h2 hc.symm)
      simp [hne, h2]
  · have : (EventType.timer == t) = false := by
      cases t <;> simp_all
    simp [this, h1]

theorem membershipStep_removeUser (t : EventType) (i : EventID) (b : Bool)
    (id : EventID) (ok : Bool) :
    membershipStep t i b (.removeUser id ok) =
      if t = .user ∧ i = id then false else b := by
  simp only [membershipStep, addKind, removeKind]
  by_cases h1 : t = .user
  · subst h1
    by_cases h2 : i = id
    · subst h2; simp
    · have hne : (id == i) = false := beq_eq_false_iff_ne.mpr (fun hc => h2 hc.symm)
      simp [hne, h2]
  · have : (EventType.user == t) = false := by
      cases t <;> simp_all
    simp [this, h1]

theorem membershipStep_removeServer (t : EventType) (i : EventID) (b : Bool)
    (id : EventID) (ok : Bool) :
    membershipStep t i b (.removeServer id ok) =
      if t = .server ∧ i = id then false else b := by
  simp only [membershipStep, addKind, removeKind]
  by_cases h1 : t = .server
  · subst h1
    by_cases h2 : i = id
    · subst h2; simp
    · have hne : (id == i) = false := beq_eq_false_iff_ne.mpr (fun hc => h2 hc.symm)
      simp [hne, h2]
  · have : (EventType.server == t) = false := by
      cases t <;> simp_all
    simp [this, h1]

theorem membershipStep_triggerUser (t : EventType) (i : EventID) (b : Bool)
    (id : EventID) (ok : Bool) :
    membershipStep t i b (.triggerUser id ok) = b := rfl

theorem membershipStep_runOnce (t : EventType) (i : EventID) (b : Bool)
    (w : Bool) (batch : List (KEvent × SlotOS)) :
    membershipStep t i b (.runOnce w batch) = b := rfl

/-! Per-operation preservation lemmas. -/

theorem addTimer_spec (s : EventLoop) (id : EventID) (tmo : Nat) (cb ok : Bool)
    (hWF : LoopWF s) :
    LoopWF (EventLoopAddTimer s id tmo cb ok).1 ∧
    ∀ t i, trackedKind t →
      EventLoopHasEvent (EventLoopAddTimer s id tmo cb ok).1 i t =
        membershipStep t i (EventLoopHasEvent s i t) (.addTimer id tmo cb ok) := by
  by_cases hhas : EventLoopHasEvent s id .timer = true
  · rw [EventLoopAddTimer, if_pos hhas]
    refine ⟨hWF, fun t i _ => ?_⟩
    rw [membershipStep_addTimer]
    split
    · next hc =>
      obtain ⟨rfl, rfl⟩ := hc
      rw [hhas]
      simp
    · rfl
  · have hhas2 : EventLoopHasEvent s id .timer = false := Bool.eq_false_iff.mpr hhas
    cases hok : ok with
    | false =>
      rw [EventLoopAddTimer, if_neg (by rw [hhas2]; simp), if_pos (by simp)]
      refine ⟨hWF, fun t i _ => ?_⟩
      rw [membershipStep_addTimer]
      split
      · next hc =>
        obtain ⟨rfl, rfl⟩ := hc
        simp
      · rfl
    | true =>
      have hnew : id ∉ slotIds s.store s.timerEvents := fun hc =>
        hhas ((hasEvent_iff s id .timer).mpr hc)
      obtain ⟨out, hins, hWFout, hmem⟩ :=
        insertEvent_spec s.store s.timerEvents s.timerEventsCount
          { type := .timer, id := id, isActive := true, timerFired := cb }
          hWF.2.1 hnew
      have heq : EventLoopAddTimer s id tmo cb true =
          ({ s with
             timerEvents := out,
             timerEventsCount := s.timerEventsCount + 1,
             store := s.store ++
               [{ type := .timer, id := id, isActive := true, timerFired := cb }] },
           [Effect.kqueueAdd (Int.ofNat id) .timer]) := by
        rw [EventLoopAddTimer, if_neg (by rw [hhas2]; simp), if_neg (by simp), hins]
      rw [heq]
      constructor
      · exact ⟨registryWF_append s.store _ _ _ hWF.1,
          hWFout, registryWF_append s.store _ _ _ hWF.2.2⟩
      · intro t i htr
        rw [membershipStep_addTimer]
        rcases htr with rfl | rfl | rfl
        · rw [if_neg (by simp)]
          refine hasEvent_congr s _ .server i rfl ?_
          intro b hb
          exact congrArg Event.id
            (getD_append_lt s.store _ b (hWF.1.1 b hb))
        · have hthis := hmem i
          have hL : EventLoopHasEvent
              ({ s with
                 timerEvents := out,
                 timerEventsCount := s.timerEventsCount + 1,
                 store := s.store ++
                   [{ type := .timer, id := id, isActive := true, timerFired := cb }] })
              i .timer =
              out.any (slotMatches (s.store ++
                [{ type := .timer, id := id, isActive := true, timerFired := cb }]) i) := rfl
          rw [hL, hthis]
          by_cases hieq : i = id
          · subst hieq
            rw [if_pos ⟨rfl, rfl⟩]
            simp
          · rw [if_neg (fun hc => hieq hc.2)]
            have hne : (id == i) = false := beq_eq_false_iff_ne.mpr (fun hc => hieq hc.symm)
            simp [hne]
            rfl
        · rw [if_neg (by simp)]
          refine hasEvent_congr s _ .user i rfl ?_
          intro b hb
          exact congrArg Event.id
            (getD_append_lt s.store _ b (hWF.2.2.1 b hb))

theorem addUser_spec (s : EventLoop) (id : EventID) (cb ok : Bool)
    (hWF : LoopWF s) :
    LoopWF (EventLoopAddUserEvent s id cb ok).1 ∧
    ∀ t i, trackedKind t →
      EventLoopHasEvent (EventLoopAddUserEvent s id cb ok).1 i t =
        membershipStep t i (EventLoopHasEvent s i t) (.addUser id cb ok) := by
  by_cases hhas : EventLoopHasEvent s id .user = true
  · rw [EventLoopAddUserEvent, if_pos hhas]
    refine ⟨hWF, fun t i _ => ?_⟩
    rw [membershipStep_addUser]
    split
    · next hc =>
      obtain ⟨rfl, rfl⟩ := hc
      rw [hhas]
      simp
    · rfl
  · have hhas2 : EventLoopHasEvent s id .user = false := Bool.eq_false_iff.mpr hhas
    cases hok : ok with
    | false =>
      rw [EventLoopAddUserEvent, if_neg (by rw [hhas2]; simp), if_pos (by simp)]
      refine ⟨hWF, fun t i _ => ?_⟩
      rw [membershipStep_addUser]
      split
      · next hc =>
        obtain ⟨rfl, rfl⟩ := hc
        simp
      · rfl
    | true =>
      have hnew : id ∉ slotIds s.store s.userEvents := fun hc =>
        hhas ((hasEvent_iff s id .user).mpr hc)
      obtain ⟨out, hins, hWFout, hmem⟩ :=
        insertEvent_spec s.store s.userEvents s.userEventsCount
          { type := .user, id := id, isActive := true, userEventFired := cb }
          hWF.2.2 hnew
      have heq : EventLoopAddUserEvent s id cb true =
          ({ s with
             userEvents := out,
             userEventsCount := s.userEventsCount + 1,
             store := s.store ++
               [{ type := .user, id := id, isActive := true, userEventFired := cb }] },
           [Effect.kqueueAdd (Int.ofNat id) .user]) := by
        rw [EventLoopAddUserEvent, if_neg (by rw [hhas2]; simp), if_neg (by simp), hins]
      rw [heq]
      constructor
      · exact ⟨registryWF_append s.store _ _ _ hWF.1,
          registryWF_append s.store _ _ _ hWF.2.1, hWFout⟩
      · intro t i htr
        rw [membershipStep_addUser]
        rcases htr with rfl | rfl | rfl
        · rw [if_neg (by simp)]
          refine hasEvent_congr s _ .server i rfl ?_
          intro b hb
          exact congrArg Event.id
            (getD_append_lt s.store _ b (hWF.1.1 b hb))
        · rw [if_neg (by simp)]
          refine hasEvent_congr s _ .timer i rfl ?_
          intro b hb
          exact congrArg Event.id
            (getD_append_lt s.store _ b (hWF.2.1.1 b hb))
        · have hthis := hmem i
          have hL : EventLoopHasEvent
              ({ s with
                 userEvents := out,
                 userEventsCount := s.userEventsCount + 1,
                 store := s.store ++
                   [{ type := .user, id := id, isActive := true, userEventFired := cb }] })
              i .user =
              out.any (slotMatches (s.store ++
                [{ type := .user, id := id, isActive := true, userEventFired := cb }]) i) := rfl
          rw [hL, hthis]
          by_cases hieq : i = id
          · subst hieq
            rw [if_pos ⟨rfl, rfl⟩]
            simp
          · rw [if_neg (fun hc => hieq hc.2)]
            have hne : (id == i) = false := beq_eq_false_iff_ne.mpr (fun hc => hieq hc.symm)
            simp [hne]
            rfl

theorem addServer_spec_of_failure (s : EventLoop) (d : ServerDescriptor)
    (os : AddServerOS) (hWF : LoopWF s)
    (heq : (EventLoopAddServer s d os).1 = s)
    (hflag : EventLoopHasEvent s d.id .server = true ∨
      (os.socketFD != -1 && os.fcntlOk && os.bindOk && os.listenOk && os.keventOk) = false) :
    LoopWF (EventLoopAddServer s d os).1 ∧
    ∀ t i, trackedKind t →
      EventLoopHasEvent (EventLoopAddServer s d os).1 i t =
        membershipStep t i (EventLoopHasEvent s i t) (.addServer d os) := by
  rw [heq]
  refine ⟨hWF, fun t i _ => ?_⟩
  rw [membershipStep_addServer]
  split
  · next hc =>
    obtain ⟨rfl, rfl⟩ := hc
    rcases hflag with hflag | hflag
    · rw [hflag]; simp
    · rw [hflag]; simp
  · rfl

theorem addServer_spec (s : EventLoop) (d : ServerDescriptor) (os : AddServerOS)
    (hWF : LoopWF s) :
    LoopWF (EventLoopAddServer s d os).1 ∧
    ∀ t i, trackedKind t →
      EventLoopHasEvent (EventLoopAddServer s d os).1 i t =
        membershipStep t i (EventLoopHasEvent s i t) (.addServer d os) := by
  by_cases hhas : EventLoopHasEvent s d.id .server = true
  · refine addServer_spec_of_failure s d os hWF ?_ (Or.inl hhas)
    rw [EventLoopAddServer, if_pos hhas]
  · have hhas2 : EventLoopHasEvent s d.id .server = false := Bool.eq_false_iff.mpr hhas
    by_cases hsfd : os.socketFD = -1
    · refine addServer_spec_of_failure s d os hWF ?_ (Or.inr (by simp [hsfd]))
      rw [EventLoopAddServer, if_neg (by rw [hhas2]; simp), if_pos (by simp [hsfd])]
    · have hsfd2 : (os.socketFD == -1) = false := beq_eq_false_iff_ne.mpr hsfd
      cases hfc : os.fcntlOk with
      | false =>
        refine addServer_spec_of_failure s d os hWF ?_ (Or.inr (by simp [hfc]))
        simp [EventLoopAddServer, hhas2, hsfd2, hfc]
      | true =>
      cases hbd : os.bindOk with
      | false =>
        refine addServer_spec_of_failure s d os hWF ?_ (Or.inr (by simp [hbd]))
        simp [EventLoopAddServer, hhas2, hsfd2, hfc, hbd]
      | true =>
      cases hls : os.listenOk with
      | false =>
        refine addServer_spec_of_failure s d os hWF ?_ (Or.inr (by simp [hls]))
        simp [EventLoopAddServer, hhas2, hsfd2, hfc, hbd, hls]
      | true =>
      cases hkv : os.keventOk with
      | false =>
        refine addServer_spec_of_failure s d os hWF ?_ (Or.inr (by simp [hkv]))
        simp [EventLoopAddServer, hhas2, hsfd2, hfc, hbd, hls, hkv]
      | true =>
      have hnew : d.id ∉ slotIds s.store s.serverEvents := fun hc =>
        hhas ((hasEvent_iff s d.id .server).mpr hc)
      obtain ⟨out, hins, hWFout, hmem⟩ :=
        insertEvent_spec s.store s.serverEvents s.serverEventsCount
          { type := .server, id := d.id, isActive := true, fd := os.socketFD,
            didAccept := d.didAccept, shouldAccept := d.shouldAccept,
            didReceiveData := d.didReceiveData, peerDidDisconnect := d.peerDidDisconnect }
          hWF.1 hnew
      have heq : EventLoopAddServer s d os =
          ({ s with
             serverEvents := out,
             serverEventsCount := s.serverEventsCount + 1,
             store := s.store ++
               [{ type := .server, id := d.id, isActive := true, fd := os.socketFD,
                  didAccept := d.didAccept, shouldAccept := d.shouldAccept,
                  didReceiveData := d.didReceiveData,
                  peerDidDisconnect := d.peerDidDisconnect }] },
           [Effect.openFD os.socketFD, Effect.kqueueAdd os.socketFD .read]) := by
        simp only [EventLoopAddServer, hhas2, hsfd2, hfc, hbd, hls, hkv,
          Bool.not_true, Bool.false_eq_true, if_false, Bool.true_eq_false]
        rw [hins]
      rw [heq]
      constructor
      · exact ⟨hWFout, registryWF_append s.store _ _ _ hWF.2.1,
          registryWF_append s.store _ _ _ hWF.2.2⟩
      · intro t i htr
        rw [membershipStep_addServer]
        rcases htr with rfl | rfl | rfl
        · have hthis := hmem i
          have hL : EventLoopHasEvent
              ({ s with
                 serverEvents := out,
                 serverEventsCount := s.serverEventsCount + 1,
                 store := s.store ++
                   [{ type := .server, id := d.id, isActive := true, fd := os.socketFD,
                      didAccept := d.didAccept, shouldAccept := d.shouldAccept,
                      didReceiveData := d.didReceiveData,
                      peerDidDisconnect := d.peerDidDisconnect }] })
              i .server =
              out.any (slotMatches (s.store ++
                [{ type := .server, id := d.id, isActive := true, fd := os.socketFD,
                   didAccept := d.didAccept, shouldAccept := d.shouldAccept,
                   didReceiveData := d.didReceiveData,
                   peerDidDisconnect := d.peerDidDisconnect }]) i) := rfl
          rw [hL, hthis]
          by_cases hieq : i = d.id
          · subst hieq
            rw [if_pos ⟨rfl, rfl⟩]
            simp [hsfd2, hfc, hbd, hls, hkv]
            exact Or.inr hsfd
          · rw [if_neg (fun hc => hieq hc.2)]
            have hne : (d.id == i) = false := beq_eq_false_iff_ne.mpr (fun hc => hieq hc.symm)
            simp [hne]
            rfl
        · rw [if_neg (by simp)]
          refine hasEvent_congr s _ .timer i rfl ?_
          intro b hb
          exact congrArg Event.id
            (getD_append_lt s.store _ b (hWF.2.1.1 b hb))
        · rw [if_neg (by simp)]
          refine hasEvent_congr s _ .user i rfl ?_
          intro b hb
          exact congrArg Event.id
            (getD_append_lt s.store _ b (hWF.2.2.1 b hb))

theorem removeTimer_spec (s : EventLoop) (id : EventID) (ok : Bool)
    (hWF : LoopWF s) :
    LoopWF (EventLoopRemoveTimer s id ok).1 ∧
    ∀ t i, trackedKind t →
      EventLoopHasEvent (EventLoopRemoveTimer s id ok).1 i t =
        membershipStep t i (EventLoopHasEvent s i t) (.removeTimer id ok) := by
  cases hrem : removeEventList s.store id s.timerEvents with
  | none =>
    have habs : EventLoopHasEvent s id .timer = false :=
      (removeEventList_none_iff s.store id s.timerEvents).mp hrem
    have heq : (EventLoopRemoveTimer s id ok).1 = s := by
      rw [EventLoopRemoveTimer, hrem]
    rw [heq]
    refine ⟨hWF, fun t i _ => ?_⟩
    rw [membershipStep_removeTimer]
    split
    · next hc =>
      obtain ⟨rfl, rfl⟩ := hc
      exact habs
    · rfl
  | some pr =>
    obtain ⟨a, out⟩ := pr
    obtain ⟨hWFout, hid, hamem, hany⟩ :=
      removeEventList_spec s.store s.timerEvents s.timerEventsCount id a out hWF.2.1 hrem
    have heq : (EventLoopRemoveTimer s id ok).1 =
        EventLoopDeactivateEvent
          { s with timerEvents := out, timerEventsCount := s.timerEventsCount - 1 } a := by
      rw [EventLoopRemoveTimer, hrem]
    rw [heq]
    constructor
    · exact loopWF_deactivate _ a ⟨hWF.1, hWFout, hWF.2.2⟩
    · intro t i htr
      rw [hasEvent_deactivate, membershipStep_removeTimer]
      rcases htr with rfl | rfl | rfl
      · rw [if_neg (by simp)]
        rfl
      · have hL : EventLoopHasEvent
            ({ s with timerEvents := out, timerEventsCount := s.timerEventsCount - 1 })
            i .timer = out.any (slotMatches s.store i) := rfl
        rw [hL, hany i]
        by_cases hieq : i = id
        · subst hieq
          rw [if_pos ⟨rfl, rfl⟩]
          simp
        · rw [if_neg (fun hc => hieq hc.2)]
          simp [hieq]
          rfl
      · rw [if_neg (by simp)]
        rfl

theorem removeUser_spec (s : EventLoop) (id : EventID) (ok : Bool)
    (hWF : LoopWF s) :
    LoopWF (EventLoopRemoveUserEvent s id ok).1 ∧
    ∀ t i, trackedKind t →
      EventLoopHasEvent (EventLoopRemoveUserEvent s id ok).1 i t =
        membershipStep t i (EventLoopHasEvent s i t) (.removeUser id ok) := by
  cases hrem : removeEventList s.store id s.userEvents with
  | none =>
    have habs : EventLoopHasEvent s id .user = false :=
      (removeEventList_none_iff s.store id s.userEvents).mp hrem
    have heq : (EventLoopRemoveUserEvent s id ok).1 = s := by
      rw [EventLoopRemoveUserEvent, hrem]
    rw [heq]
    refine ⟨hWF, fun t i _ => ?_⟩
    rw [membershipStep_removeUser]
    split
    · next hc =>
      obtain ⟨rfl, rfl⟩ := hc
      exact habs
    · rfl
  | some pr =>
    obtain ⟨a, out⟩ := pr
    obtain ⟨hWFout, hid, hamem, hany⟩ :=
      removeEventList_spec s.store s.userEvents s.userEventsCount id a out hWF.2.2 hrem
    have heq : (EventLoopRemoveUserEvent s id ok).1 =
        EventLoopDeactivateEvent
          { s with userEvents := out, userEventsCount := s.userEventsCount - 1 } a := by
      rw [EventLoopRemoveUserEvent, hrem]
    rw [heq]
    constructor
    · exact loopWF_deactivate _ a ⟨hWF.1, hWF.2.1, hWFout⟩
    · intro t i htr
      rw [hasEvent_deactivate, membershipStep_removeUser]
      rcases htr with rfl | rfl | rfl
      · rw [if_neg (by simp)]
        rfl
      · rw [if_neg (by simp)]
        rfl
      · have hL : EventLoopHasEvent
            ({ s with userEvents := out, userEventsCount := s.userEventsCount - 1 })
            i .user = out.any (slotMatches s.store i) := rfl
        rw [hL, hany i]
        by_cases hieq : i = id
        · subst hieq
          rw [if_pos ⟨rfl, rfl⟩]
          simp
        · rw [if_neg (fun hc => hieq hc.2)]
          simp [hieq]
          rfl

theorem removeServer_spec (s : EventLoop) (id : EventID) (ok : Bool)
    (hWF : LoopWF s) :
    LoopWF (EventLoopRemoveServer s id ok).1 ∧
    ∀ t i, trackedKind t →
      EventLoopHasEvent (EventLoopRemoveServer s id ok).1 i t =
        membershipStep t i (EventLoopHasEvent s i t) (.removeServer id ok) := by
  cases hrem : removeEventList s.store id s.serverEvents with
  | none =>
    have habs : EventLoopHasEvent s id .server = false :=
      (removeEventList_none_iff s.store id s.serverEvents).mp hrem
    have heq : (EventLoopRemoveServer s id ok).1 = s := by
      rw [EventLoopRemoveServer, hrem]
    rw [heq]
    refine ⟨hWF, fun t i _ => ?_⟩
    rw [membershipStep_removeServer]
    split
    · next hc =>
      obtain ⟨rfl, rfl⟩ := hc
      exact habs
    · rfl
  | some pr =>
    obtain ⟨a, out⟩ := pr
    obtain ⟨hWFout, hid, hamem, hany⟩ :=
      removeEventList_spec s.store s.serverEvents s.serverEventsCount id a out hWF.1 hrem
    have heq : (EventLoopRemoveServer s id ok).1 =
        EventLoopDeactivateEvent
          { s with serverEvents := out, serverEventsCount := s.serverEventsCount - 1 } a := by
      rw [EventLoopRemoveServer, hrem]
    rw [heq]
    constructor
    · exact loopWF_deactivate _ a ⟨hWFout, hWF.2.1, hWF.2.2⟩
    · intro t i htr
      rw [hasEvent_deactivate, membershipStep_removeServer]
      rcases htr with rfl | rfl | rfl
      · have hL : EventLoopHasEvent
            ({ s with serverEvents := out, serverEventsCount := s.serverEventsCount - 1 })
            i .server = out.any (slotMatches s.store i) := rfl
        rw [hL, hany i]
        by_cases hieq : i = id
        · subst hieq
          rw [if_pos ⟨rfl, rfl⟩]
          simp
        · rw [if_neg (fun hc => hieq hc.2)]
          simp [hieq]
          rfl
      · rw [if_neg (by simp)]
        rfl
      · rw [if_neg (by simp)]
        rfl

theorem triggerUser_state (s : EventLoop) (id : EventID) (ok : Bool) :
    (EventLoopTriggerUserEvent s id ok).1 = s := by
  cases hfind : EventLoopFindExistingEvent s id .user with
  | none => rw [EventLoopTriggerUserEvent, hfind]
  | some a => rw [EventLoopTriggerUserEvent, hfind]

/-! Dispatch never changes the server, timer or user registries; it only
mutates records (preserving their ids), the peer registry and the
deferred-free list. -/

theorem some_pair_eq {p : EventLoop × List Effect} {s2 : EventLoop}
    {effs : List Effect} (h : p = (s2, effs)) : s2 = p.1 := by rw [h]

theorem handleServerEventError_pres (s : EventLoop) (a : Nat) (cfd : Int)
    (pre : List Effect) (hWF : LoopWF s) :
    LoopWF (handleServerEventError s a cfd pre).1 ∧
    ∀ t i, EventLoopHasEvent (handleServerEventError s a cfd pre).1 i t =
      EventLoopHasEvent s i t := by
  constructor
  · exact loopWF_setEvent s a _ (EventDestroy_id (getEvent s a)) hWF
  · intro t i
    exact hasEvent_setEvent s a _ (EventDestroy_id (getEvent s a)) t i

theorem handleServerEvent_pres (s : EventLoop) (a : Nat) (os : AcceptOS)
    (s2 : EventLoop) (effs : List Effect) (hWF : LoopWF s)
    (h : EventLoopHandleServerEvent s a os = some (s2, effs)) :
    LoopWF s2 ∧
    ∀ t i, trackedKind t → EventLoopHasEvent s2 i t = EventLoopHasEvent s i t := by
  simp only [EventLoopHandleServerEvent] at h
  repeat' split at h
  all_goals try exact Option.noConfusion h
  all_goals rw [Option.some_inj] at h
  all_goals rw [some_pair_eq h]
  all_goals try exact ⟨(handleServerEventError_pres s a _ _ hWF).1,
    fun t i _ => (handleServerEventError_pres s a _ _ hWF).2 t i⟩
  -- the remaining goal is the successful accept: peer stored and registered
  all_goals constructor
  all_goals try exact ⟨registryWF_append s.store _ _ _ hWF.1,
    registryWF_append s.store _ _ _ hWF.2.1,
    registryWF_append s.store _ _ _ hWF.2.2⟩
  all_goals intro t i htr
  all_goals rcases htr with rfl | rfl | rfl
  all_goals first
    | (refine hasEvent_congr s _ .server i rfl ?_
       intro b hb
       exact congrArg Event.id (getD_append_lt s.store _ b (hWF.1.1 b hb)))
    | (refine hasEvent_congr s _ .timer i rfl ?_
       intro b hb
       exact congrArg Event.id (getD_append_lt s.store _ b (hWF.2.1.1 b hb)))
    | (refine hasEvent_congr s _ .user i rfl ?_
       intro b hb
       exact congrArg Event.id (getD_append_lt s.store _ b (hWF.2.2.1 b hb)))

theorem handleDisconnect_pres (s : EventLoop) (a : Nat) (hWF : LoopWF s) :
    LoopWF (EventLoopHandleServerPeerDisconnect s a).1 ∧
    ∀ t i, trackedKind t →
      EventLoopHasEvent (EventLoopHandleServerPeerDisconnect s a).1 i t =
        EventLoopHasEvent s i t := by
  cases hfound : removePointerList a s.serverPeerEvents with
  | none =>
    have heq : (EventLoopHandleServerPeerDisconnect s a).1 =
        EventLoopDeactivateEvent s a := by
      rw [EventLoopHandleServerPeerDisconnect, hfound]
    rw [heq]
    exact ⟨loopWF_deactivate s a hWF,
      fun t i _ => hasEvent_deactivate s a t i⟩
  | some slots =>
    have heq : (EventLoopHandleServerPeerDisconnect s a).1 =
        EventLoopDeactivateEvent
          { s with serverPeerEvents := slots,
                   serverPeerEventsCount := s.serverPeerEventsCount - 1 } a := by
      rw [EventLoopHandleServerPeerDisconnect, hfound]
    rw [heq]
    refine ⟨loopWF_deactivate _ a ⟨hWF.1, hWF.2.1, hWF.2.2⟩, fun t i htr => ?_⟩
    rw [hasEvent_deactivate]
    rcases htr with rfl | rfl | rfl <;> rfl

theorem handleRead_state (s : EventLoop) (a : Nat) (n : Int) :
    (EventLoopHandleServerPeerReadEvent s a n).1 =
      setEvent s a (if (getEvent s a).receiveBufferSize == 0 then
        { getEvent s a with receiveBufferSize := 1024 } else getEvent s a) := by
  rw [EventLoopHandleServerPeerReadEvent]
  split
  · rfl
  · split <;> rfl

theorem handleRead_pres (s : EventLoop) (a : Nat) (n : Int) (hWF : LoopWF s) :
    LoopWF (EventLoopHandleServerPeerReadEvent s a n).1 ∧
    ∀ t i, EventLoopHasEvent (EventLoopHandleServerPeerReadEvent s a n).1 i t =
      EventLoopHasEvent s i t := by
  rw [handleRead_state]
  have hid : (if (getEvent s a).receiveBufferSize == 0 then
      { getEvent s a with receiveBufferSize := 1024 } else getEvent s a).id =
      (getEvent s a).id := by
    split <;> rfl
  exact ⟨loopWF_setEvent s a _ hid hWF, fun t i => hasEvent_setEvent s a _ hid t i⟩

theorem handleTimer_state (s : EventLoop) (a : Nat) :
    (EventLoopHandleTimerEvent s a).1 = s := by
  rw [EventLoopHandleTimerEvent]
  split <;> rfl

theorem handleUser_state (s : EventLoop) (a : Nat) (ok : Bool) :
    (EventLoopHandleUserEvent s a ok).1 = s := by
  rw [EventLoopHandleUserEvent]
  split <;> rfl

theorem dispatchKEvent_pres (s : EventLoop) (ke : KEvent) (os : SlotOS)
    (s2 : EventLoop) (effs : List Effect) (hWF : LoopWF s)
    (h : dispatchKEvent s ke os = some (s2, effs)) :
    LoopWF s2 ∧
    ∀ t i, trackedKind t → EventLoopHasEvent s2 i t = EventLoopHasEvent s i t := by
  rw [dispatchKEvent] at h
  rcases ke with ⟨filter, eof, a⟩
  cases filter with
  | read =>
    simp only [] at h
    split at h
    · exact handleServerEvent_pres s a os.acceptOS s2 effs hWF h
    · split at h
      · split at h
        · rw [Option.some_inj] at h
          rw [some_pair_eq h]
          exact handleDisconnect_pres s a hWF
        · rw [Option.some_inj] at h
          rw [some_pair_eq h]
          obtain ⟨h1, h2⟩ := handleRead_pres s a os.bytesRead hWF
          exact ⟨h1, fun t i _ => h2 t i⟩
      · rw [Option.some_inj] at h
        rw [some_pair_eq h]
        exact ⟨hWF, fun t i _ => rfl⟩
  | write =>
    simp only [] at h
    split at h
    · split at h
      · rw [Option.some_inj] at h
        rw [some_pair_eq h]
        exact handleDisconnect_pres s a hWF
      · rw [Option.some_inj] at h
        rw [some_pair_eq h]
        exact ⟨hWF, fun t i _ => rfl⟩
    · rw [Option.some_inj] at h
      rw [some_pair_eq h]
      exact ⟨hWF, fun t i _ => rfl⟩
  | timer =>
    rw [Option.some_inj] at h
    rw [some_pair_eq h, handleTimer_state]
    exact ⟨hWF, fun t i _ => rfl⟩
  | user =>
    rw [Option.some_inj] at h
    rw [some_pair_eq h, handleUser_state]
    exact ⟨hWF, fun t i _ => rfl⟩

theorem dispatchBatch_pres (batch : List (KEvent × SlotOS)) (s : EventLoop)
    (s2 : EventLoop) (effs : List Effect) (hWF : LoopWF s)
    (h : dispatchBatch s batch = some (s2, effs)) :
    LoopWF s2 ∧
    ∀ t i, trackedKind t → EventLoopHasEvent s2 i t = EventLoopHasEvent s i t := by
  induction batch generalizing s effs with
  | nil =>
    rw [dispatchBatch, Option.some_inj] at h
    rw [some_pair_eq h]
    exact ⟨hWF, fun t i _ => rfl⟩
  | cons p rest ih =>
    rw [dispatchBatch] at h
    cases h1 : dispatchKEvent s p.1 p.2 with
    | none => rw [h1] at h; exact Option.noConfusion h
    | some pr =>
      rw [h1] at h
      simp only [] at h
      cases h2 : dispatchBatch pr.1 rest with
      | none => rw [h2] at h; exact Option.noConfusion h
      | some pr2 =>
        rw [h2, Option.some_inj] at h
        have h31 : pr2.1 = s2 := congrArg Prod.fst h
        obtain ⟨hWF1, hmem1⟩ := dispatchKEvent_pres s p.1 p.2 pr.1 pr.2 hWF h1
        obtain ⟨hWF2, hmem2⟩ := ih pr.1 pr2.2 hWF1 (by rw [h2, ← h31])
        exact ⟨hWF2, fun t i htr => (hmem2 t i htr).trans (hmem1 t i htr)⟩

theorem drainEvents_pres (l : List Nat) (s : EventLoop) (hWF : LoopWF s) :
    LoopWF (drainEvents s l).1 ∧
    ∀ t i, EventLoopHasEvent (drainEvents s l).1 i t = EventLoopHasEvent s i t := by
  induction l generalizing s with
  | nil => exact ⟨hWF, fun t i => rfl⟩
  | cons a rest ih =>
    have hid := EventDestroy_id (getEvent s a)
    obtain ⟨h1, h2⟩ := ih (setEvent s a (EventDestroy (getEvent s a)).1)
      (loopWF_setEvent s a _ hid hWF)
    have heq : (drainEvents s (a :: rest)).1 =
        (drainEvents (setEvent s a (EventDestroy (getEvent s a)).1) rest).1 := rfl
    rw [heq]
    exact ⟨h1, fun t i =>
      (h2 t i).trans (hasEvent_setEvent s a _ hid t i)⟩

theorem deactivateEvents_pres (s : EventLoop) (hWF : LoopWF s) :
    LoopWF (EventLoopDeactivateEvents s).1 ∧
    ∀ t i, EventLoopHasEvent (EventLoopDeactivateEvents s).1 i t =
      EventLoopHasEvent s i t := by
  obtain ⟨h1, h2⟩ := drainEvents_pres s.deactivatedEvents s hWF
  constructor
  · exact h1
  · intro t i
    have heq : EventLoopHasEvent (EventLoopDeactivateEvents s).1 i t =
        EventLoopHasEvent (drainEvents s s.deactivatedEvents).1 i t := rfl
    rw [heq]
    exact h2 t i

theorem runOnce_pres (s : EventLoop) (w : Bool) (batch : List (KEvent × SlotOS))
    (s2 : EventLoop) (effs : List Effect) (hWF : LoopWF s)
    (h : EventLoopRunOnce s w batch = some (s2, effs)) :
    LoopWF s2 ∧
    ∀ t i, trackedKind t → EventLoopHasEvent s2 i t = EventLoopHasEvent s i t := by
  rw [EventLoopRunOnce] at h
  split at h
  · rw [Option.some_inj] at h
    rw [some_pair_eq h]
    exact ⟨hWF, fun t i _ => rfl⟩
  · cases hb : dispatchBatch s batch with
    | none => rw [hb] at h; exact absurd h (by simp)
    | some pr =>
      rw [hb, Option.some_inj] at h
      obtain ⟨hWF1, hmem1⟩ := dispatchBatch_pres batch s pr.1 pr.2 hWF hb
      obtain ⟨hWF2, hmem2⟩ := deactivateEvents_pres pr.1 hWF1
      rw [some_pair_eq h]
      exact ⟨hWF2, fun t i htr => (hmem2 t i).trans (hmem1 t i htr)⟩

/-- One API call preserves well-formedness and transforms membership
exactly as the specification-level transition says. -/
theorem step_spec (s : EventLoop) (op : Op) (s2 : EventLoop) (effs : List Effect)
    (hWF : LoopWF s) (h : step s op = some (s2, effs)) :
    LoopWF s2 ∧ ∀ t i, trackedKind t →
      EventLoopHasEvent s2 i t =
        membershipStep t i (EventLoopHasEvent s i t) op := by
  cases op with
  | addServer d os =>
    simp only [step, Option.some_inj] at h
    rw [some_pair_eq h]
    exact addServer_spec s d os hWF
  | removeServer id ok =>
    simp only [step, Option.some_inj] at h
    rw [some_pair_eq h]
    exact removeServer_spec s id ok hWF
  | addTimer id tmo cb ok =>
    simp only [step, Option.some_inj] at h
    rw [some_pair_eq h]
    exact addTimer_spec s id tmo cb ok hWF
  | removeTimer id ok =>
    simp only [step, Option.some_inj] at h
    rw [some_pair_eq h]
    exact removeTimer_spec s id ok hWF
  | addUser id cb ok =>
    simp only [step, Option.some_inj] at h
    rw [some_pair_eq h]
    exact addUser_spec s id cb ok hWF
  | removeUser id ok =>
    simp only [step, Option.some_inj] at h
    rw [some_pair_eq h]
    exact removeUser_spec s id ok hWF
  | triggerUser id ok =>
    simp only [step, Option.some_inj] at h
    rw [some_pair_eq h, triggerUser_state]
    exact ⟨hWF, fun t i _ => rfl⟩
  | runOnce w batch =>
    obtain ⟨h1, h2⟩ := runOnce_pres s w batch s2 effs hWF h
    exact ⟨h1, fun t i htr => h2 t i htr⟩

/-- A call sequence transforms membership exactly as the folded
specification-level transition says, and keeps the state well-formed. -/
theorem runOps_spec (ops : List Op) (s s2 : EventLoop) (hWF : LoopWF s)
    (h : runOps s ops = some s2) :
    LoopWF s2 ∧ ∀ t i, trackedKind t →
      EventLoopHasEvent s2 i t =
        membershipAfter t i ops (EventLoopHasEvent s i t) := by
  induction ops generalizing s with
  | nil =>
    rw [runOps, Option.some_inj] at h
    subst h
    exact ⟨hWF, fun t i _ => rfl⟩
  | cons op rest ih =>
    rw [runOps] at h
    cases h1 : step s op with
    | none => rw [h1] at h; exact Option.noConfusion h
    | some pr =>
      rw [h1] at h
      simp only [] at h
      obtain ⟨hWF1, hmem1⟩ := step_spec s op pr.1 pr.2 hWF (by rw [h1])
      obtain ⟨hWF2, hmem2⟩ := ih pr.1 hWF1 h
      refine ⟨hWF2, fun t i htr => ?_⟩
      rw [membershipAfter, List.foldl_cons, hmem2 t i htr, hmem1 t i htr]
      rfl

/-! Concrete reactor states used to settle the claims. -/

/-- A registered server record: id 1, listening socket 7. -/
def serverRecord : Event :=
  { type := .server, id := 1, isActive := true, fd := 7 }

/-- A server record with a shouldAccept callback installed. -/
def serverRecordSA : Event :=
  { type := .server, id := 1, isActive := true, fd := 7, shouldAccept := true }

/-- An inactive (deferred-removed) peer record of server 1 with callbacks. -/
def inactivePeerRecord : Event :=
  { type := .serverPeer, id := 2, isActive := false, fd := 9, serverID := 1,
    didReceiveData := true, peerDidDisconnect := true }

/-- An active peer record of server 1 with callbacks. -/
def activePeerRecord : Event :=
  { type := .serverPeer, id := 2, isActive := true, fd := 9, serverID := 1,
    didReceiveData := true, peerDidDisconnect := true }

/-- A reactor holding only the inactive peer. -/
def c1State : EventLoop :=
  { emptyEventLoop 3 with
    serverPeerEvents := [some 0], serverPeerEventsCount := 1,
    store := [inactivePeerRecord] }

/-- A reactor holding one registered server. -/
def c2State : EventLoop :=
  { emptyEventLoop 3 with
    serverEvents := [some 0], serverEventsCount := 1,
    store := [serverRecord] }

/-- A reactor holding one server with shouldAccept and no peers. -/
def c2StateSA : EventLoop :=
  { emptyEventLoop 3 with
    serverEvents := [some 0], serverEventsCount := 1,
    store := [serverRecordSA] }

/-- C1 counterexample: a slot event whose record is inactive (removed
earlier in the same batch) is NOT skipped for the peer-read and
peer-hangup kinds: the user callbacks are still invoked.  Here the
peer-read dispatch of an inactive peer invokes didReceiveData, and the
hangup dispatch invokes peerDidDisconnect. -/
theorem claim_C1_counterexample :
    (getEvent c1State 0).isActive = false ∧
    dispatchKEvent c1State { filter := .read, eof := false, udata := 0 }
        { bytesRead := 5 } =
      some (setEvent c1State 0 { inactivePeerRecord with receiveBufferSize := 1024 },
        [Effect.invoke (.didReceiveData 1 2 5)]) ∧
    Effect.invoke (.peerDidDisconnect 1 2) ∈
      ((dispatchKEvent c1State { filter := .read, eof := true, udata := 0 }
        { bytesRead := 5 }).getD (c1State, [])).2 := by
  decide

/-- C1 (amended): the dispatcher skips slot events whose record has
active=false only for the timer-fire and user-fire kinds; for those two
the dispatch is a complete no-op (no callback, no state change).
Server-accept, peer-read and peer-hangup events are dispatched without
consulting the active flag. -/
theorem claim_C1 (s : EventLoop) (ke : KEvent) (os : SlotOS)
    (hinact : (getEvent s ke.udata).isActive = false)
    (hfil : ke.filter = .timer ∨ ke.filter = .user) :
    dispatchKEvent s ke os = some (s, []) := by
  rcases hfil with h | h <;> rw [dispatchKEvent, h]
  · rw [EventLoopHandleTimerEvent]
    simp [hinact]
  · rw [EventLoopHandleUserEvent]
    simp [hinact]

/-- C1 witness: the amended skip at a concrete inactive timer record. -/
theorem claim_C1_witness :
    (getEvent { emptyEventLoop 3 with
        timerEvents := [some 0], timerEventsCount := 1,
        store := [{ type := .timer, id := 4, isActive := false, timerFired := true }] }
      0).isActive = false ∧
    dispatchKEvent { emptyEventLoop 3 with
        timerEvents := [some 0], timerEventsCount := 1,
        store := [{ type := .timer, id := 4, isActive := false, timerFired := true }] }
      { filter := .timer, eof := false, udata := 0 } { bytesRead := 0 } =
      some ({ emptyEventLoop 3 with
        timerEvents := [some 0], timerEventsCount := 1,
        store := [{ type := .timer, id := 4, isActive := false, timerFired := true }] }, []) :=
  ⟨by decide,
   claim_C1 _ _ _ (by decide) (Or.inl rfl)⟩

/-- C2 (code bug): when the accept path fails (accept returns -1, or
shouldAccept rejects), the error label runs SAFE_DESTROY on the SERVER
record instead of the peer under construction: the listening socket
(fd 7) is closed, the server record keeps fd -1, yet it stays in the
registry (has_server still true), so the server is left registered but
unusable — contradicting the claim that only the would-be peer is
affected. -/
theorem claim_C2 :
    (EventLoopHandleServerEvent c2State 0 { clientFD := -1 } =
      some (setEvent c2State 0 { serverRecord with fd := -1 },
        [Effect.logged, Effect.closeFD 7]) ∧
     EventLoopHasServer (setEvent c2State 0 { serverRecord with fd := -1 }) 1 = true) ∧
    (EventLoopHandleServerEvent c2StateSA 0
        { clientFD := 8, shouldAcceptResult := false } =
      some (setEvent c2StateSA 0 { serverRecordSA with fd := -1 },
        [Effect.openFD 8, Effect.invoke (.shouldAccept 1), Effect.logged,
         Effect.closeFD 7, Effect.closeFD 8]) ∧
     EventLoopHasServer (setEvent c2StateSA 0 { serverRecordSA with fd := -1 }) 1 = true) := by
  decide

/-- Reading back the slot just written (valid address). -/
theorem getD_set_self (store : List Event) (a : Nat) (e : Event)
    (h : a < store.length) : (store.set a e).getD a Event.null = e := by
  induction store generalizing a with
  | nil => exact absurd h (by simp)
  | cons x xs ih =>
    cases a with
    | zero => rfl
    | succ a =>
      exact ih a (Nat.lt_of_succ_lt_succ h)

/-- Every registered peer of the given server gets its socket closed by
the peer-walk of EventLoopRemoveServer. -/
theorem peerCloseEffects_mem (s : EventLoop) (sid : EventID) (b : Nat)
    (hb : some b ∈ s.serverPeerEvents) (hmatch : (getEvent s b).serverID = sid) :
    Effect.closeFD (getEvent s b).fd ∈ peerCloseEffects s sid := by
  rw [peerCloseEffects]
  have main : ∀ (l : List (Option Nat)) (acc : List Effect),
      some b ∈ l ∨ Effect.closeFD (getEvent s b).fd ∈ acc →
      Effect.closeFD (getEvent s b).fd ∈ l.foldl
        (fun acc slot =>
          match slot with
          | some a =>
            let p := getEvent s a
            if p.serverID == sid then acc ++ [Effect.closeFD p.fd] else acc
          | none => acc) acc := by
    intro l
    induction l with
    | nil =>
      intro acc h
      rcases h with h | h
      · exact absurd h (by simp)
      · exact h
    | cons slot rest ih =>
      intro acc h
      rw [List.foldl_cons]
      rcases h with h | h
      · rcases List.mem_cons.mp h with h2 | h2
        · subst h2
          refine ih _ (Or.inr ?_)
          show Effect.closeFD (getEvent s b).fd ∈
            if ((getEvent s b).serverID == sid) = true then
              acc ++ [Effect.closeFD (getEvent s b).fd] else acc
          rw [if_pos (beq_iff_eq.mpr hmatch)]
          exact List.mem_append_right _ (by simp)
        · exact ih _ (Or.inl h2)
      · refine ih _ (Or.inr ?_)
        cases slot with
        | none => exact h
        | some c =>
          show Effect.closeFD (getEvent s b).fd ∈
            if ((getEvent s c).serverID == sid) = true then
              acc ++ [Effect.closeFD (getEvent s c).fd] else acc
          split
          · exact List.mem_append_left _ h
          · exact h
  exact main s.serverPeerEvents [] (Or.inl hb)

/-- A reactor with one server (id 1, fd 7) and one connected peer of it
(id 2, fd 9). -/
def c3State : EventLoop :=
  { emptyEventLoop 3 with
    serverEvents := [some 1], serverEventsCount := 1,
    serverPeerEvents := [some 0], serverPeerEventsCount := 1,
    store := [activePeerRecord, serverRecord] }

/-- C3 counterexample: after remove_server(1) the peer registry still
holds the peer record whose serverID is 1 — the claim that no peer
record with that owning-server id remains is false (the walk only closes
the peer sockets). -/
theorem claim_C3_counterexample :
    (EventLoopRemoveServer c3State 1 true).1.serverPeerEvents = [some 0] ∧
    (getEvent (EventLoopRemoveServer c3State 1 true).1 0).serverID = 1 ∧
    (getEvent (EventLoopRemoveServer c3State 1 true).1 0).type = .serverPeer ∧
    (EventLoopRemoveServer c3State 1 true).1.serverPeerEventsCount = 1 := by
  decide

/-- C3 (amended): for a registered server, remove_server clears the
server's own slot, appends the (now inactive) server record to the
deferred-free list, submits the backend EV_DELETE using the SERVER ID as
the kqueue ident, and closes the socket of every peer whose serverID
matches — but the peer registry itself is left untouched (every peer
record, matching or not, stays registered) and no other disconnect step
runs for them. -/
theorem claim_C3 (s : EventLoop) (id : EventID) (ok : Bool) (a : Nat)
    (out : List (Option Nat))
    (h : removeEventList s.store id s.serverEvents = some (a, out)) :
    (EventLoopRemoveServer s id ok).1.serverPeerEvents = s.serverPeerEvents ∧
    (EventLoopRemoveServer s id ok).1.serverEvents = out ∧
    (EventLoopRemoveServer s id ok).1.deactivatedEvents =
      s.deactivatedEvents ++ [a] ∧
    Effect.kqueueDelete (Int.ofNat id) .read ∈ (EventLoopRemoveServer s id ok).2 ∧
    (∀ b, some b ∈ s.serverPeerEvents → (getEvent s b).serverID = id →
      Effect.closeFD (getEvent s b).fd ∈ (EventLoopRemoveServer s id ok).2) := by
  obtain ⟨pre, post, hdec, hout, hpre, hid⟩ :=
    removeEventList_decomp s.store id s.serverEvents a out h
  have heq1 : (EventLoopRemoveServer s id ok).1 =
      EventLoopDeactivateEvent
        { s with serverEvents := out, serverEventsCount := s.serverEventsCount - 1 } a := by
    rw [EventLoopRemoveServer, h]
  have heq2 : (EventLoopRemoveServer s id ok).2 =
      peerCloseEffects
        { s with serverEvents := out, serverEventsCount := s.serverEventsCount - 1 }
        (getEvent s a).id ++
      [Effect.kqueueDelete (Int.ofNat id) .read] ++
       (if ok then [] else [Effect.logged]) := by
    rw [EventLoopRemoveServer, h]
    rfl
  refine ⟨by rw [heq1]; rfl, by rw [heq1]; rfl, by rw [heq1]; rfl, ?_, ?_⟩
  · rw [heq2]
    exact List.mem_append_left _ (List.mem_append_right _ (by simp))
  · intro b hb hmatch
    rw [heq2]
    refine List.mem_append_left _ (List.mem_append_left _ ?_)
    have hmem := peerCloseEffects_mem
      { s with serverEvents := out, serverEventsCount := s.serverEventsCount - 1 }
      id b hb hmatch
    have hid2 : (getEvent s a).id = id := hid
    rw [hid2]
    exact hmem

/-- C3 witness: the amended behaviour at the concrete two-record state. -/
theorem claim_C3_witness :
    removeEventList c3State.store 1 c3State.serverEvents = some (1, [none]) ∧
    (EventLoopRemoveServer c3State 1 true).1.serverPeerEvents =
      c3State.serverPeerEvents ∧
    Effect.closeFD 9 ∈ (EventLoopRemoveServer c3State 1 true).2 := by
  refine ⟨by decide, ?_, ?_⟩
  · exact (claim_C3 c3State 1 true 1 [none] (by decide)).1
  · exact (claim_C3 c3State 1 true 1 [none] (by decide)).2.2.2.2 0 (by decide) (by decide)

/-- A reactor with one connected, active peer of server 1. -/
def c4State : EventLoop :=
  { emptyEventLoop 3 with
    serverPeerEvents := [some 0], serverPeerEventsCount := 1,
    store := [activePeerRecord] }

/-- C4 counterexample: a read of 0 bytes is NOT treated as a disconnect:
the peer stays in the registry and only a warning is logged, while the
EOF-flag path removes the peer from the registry and invokes
peerDidDisconnect. -/
theorem claim_C4_counterexample :
    (EventLoopHandleServerPeerReadEvent c4State 0 0).1.serverPeerEvents = [some 0] ∧
    (EventLoopHandleServerPeerReadEvent c4State 0 0).2 = [Effect.logged] ∧
    (EventLoopHandleServerPeerDisconnect c4State 0).1.serverPeerEvents = [none] ∧
    (EventLoopHandleServerPeerDisconnect c4State 0).2 =
      [Effect.invoke (.peerDidDisconnect 1 2)] := by
  decide

/-- C4 (amended): a 0-byte read only logs a warning: every registry, the
deferred-free list and all memberships are unchanged (only the lazy
receive-buffer allocation happens), and no callback is invoked.  The
disconnect treatment happens only on the backend EOF flag. -/
theorem claim_C4 (s : EventLoop) (a : Nat) :
    (EventLoopHandleServerPeerReadEvent s a 0).1.serverPeerEvents =
      s.serverPeerEvents ∧
    (EventLoopHandleServerPeerReadEvent s a 0).1.deactivatedEvents =
      s.deactivatedEvents ∧
    (EventLoopHandleServerPeerReadEvent s a 0).2 = [Effect.logged] ∧
    ∀ t i, EventLoopHasEvent (EventLoopHandleServerPeerReadEvent s a 0).1 i t =
      EventLoopHasEvent s i t := by
  have hid : (if (getEvent s a).receiveBufferSize == 0 then
      { getEvent s a with receiveBufferSize := 1024 } else getEvent s a).id =
      (getEvent s a).id := by
    split <;> rfl
  refine ⟨by rw [handleRead_state]; rfl, by rw [handleRead_state]; rfl, ?_, ?_⟩
  · rw [EventLoopHandleServerPeerReadEvent]
    norm_num
  · intro t i
    rw [handleRead_state]
    exact hasEvent_setEvent s a _ hid t i

/-- C5: membership tracks the call history exactly.  Conjunct 1: over any
well-formed state and any terminating call sequence, has_X(i) afterwards
equals the specification fold — true from a successful add_X(i) until the
first subsequent remove_X(i), false otherwise, with every other call
(including whole dispatch batches) leaving it unchanged.  Conjuncts 2-4:
a remove_X(i) that finds the record makes has_X(i) false immediately even
though the record is only marked inactive and parked on the deferred-free
list with its descriptor untouched; for timers and user events the remove
emits no close at all (the close happens at the drain). -/
theorem claim_C5 :
    (∀ ops s s2, LoopWF s → runOps s ops = some s2 →
      ∀ t i, trackedKind t →
        EventLoopHasEvent s2 i t =
          membershipAfter t i ops (EventLoopHasEvent s i t)) ∧
    (∀ s id ok a out, LoopWF s →
      removeEventList s.store id s.timerEvents = some (a, out) →
      EventLoopHasEvent (EventLoopRemoveTimer s id ok).1 id .timer = false ∧
      (EventLoopRemoveTimer s id ok).1.deactivatedEvents =
        s.deactivatedEvents ++ [a] ∧
      getEvent (EventLoopRemoveTimer s id ok).1 a =
        { getEvent s a with isActive := false } ∧
      ∀ fdv, Effect.closeFD fdv ∉ (EventLoopRemoveTimer s id ok).2) ∧
    (∀ s id ok a out, LoopWF s →
      removeEventList s.store id s.userEvents = some (a, out) →
      EventLoopHasEvent (EventLoopRemoveUserEvent s id ok).1 id .user = false ∧
      (EventLoopRemoveUserEvent s id ok).1.deactivatedEvents =
        s.deactivatedEvents ++ [a] ∧
      getEvent (EventLoopRemoveUserEvent s id ok).1 a =
        { getEvent s a with isActive := false } ∧
      ∀ fdv, Effect.closeFD fdv ∉ (EventLoopRemoveUserEvent s id ok).2) ∧
    (∀ s id ok a out, LoopWF s →
      removeEventList s.store id s.serverEvents = some (a, out) →
      EventLoopHasEvent (EventLoopRemoveServer s id ok).1 id .server = false ∧
      (EventLoopRemoveServer s id ok).1.deactivatedEvents =
        s.deactivatedEvents ++ [a] ∧
      getEvent (EventLoopRemoveServer s id ok).1 a =
        { getEvent s a with isActive := false }) := by
  refine ⟨fun ops s s2 hWF h => (runOps_spec ops s s2 hWF h).2, ?_, ?_, ?_⟩
  · intro s id ok a out hWF h
    have hspec := removeEventList_spec s.store s.timerEvents s.timerEventsCount
      id a out hWF.2.1 h
    have ha : a < s.store.length := hWF.2.1.1 a hspec.2.2.1
    have heq : (EventLoopRemoveTimer s id ok).1 =
        EventLoopDeactivateEvent
          { s with timerEvents := out, timerEventsCount := s.timerEventsCount - 1 }
          a := by
      rw [EventLoopRemoveTimer, h]
    refine ⟨?_, by rw [heq]; rfl, ?_, ?_⟩
    · have hm := (removeTimer_spec s id ok hWF).2 .timer id (Or.inr (Or.inl rfl))
      rw [hm, membershipStep_removeTimer, if_pos ⟨rfl, rfl⟩]
    · rw [heq]
      show (s.store.set a { getEvent s a with isActive := false }).getD a Event.null = _
      exact getD_set_self s.store a _ ha
    · have heff : (EventLoopRemoveTimer s id ok).2 =
          [Effect.kqueueDelete (Int.ofNat id) .timer] ++
          (if ok then [] else [Effect.logged]) := by
        rw [EventLoopRemoveTimer, h]
      intro fdv hc
      rw [heff] at hc
      cases ok <;> simp at hc
  · intro s id ok a out hWF h
    have hspec := removeEventList_spec s.store s.userEvents s.userEventsCount
      id a out hWF.2.2 h
    have ha : a < s.store.length := hWF.2.2.1 a hspec.2.2.1
    have heq : (EventLoopRemoveUserEvent s id ok).1 =
        EventLoopDeactivateEvent
          { s with userEvents := out, userEventsCount := s.userEventsCount - 1 }
          a := by
      rw [EventLoopRemoveUserEvent, h]
    refine ⟨?_, by rw [heq]; rfl, ?_, ?_⟩
    · have hm := (removeUser_spec s id ok hWF).2 .user id (Or.inr (Or.inr rfl))
      rw [hm, membershipStep_removeUser, if_pos ⟨rfl, rfl⟩]
    · rw [heq]
      show (s.store.set a { getEvent s a with isActive := false }).getD a Event.null = _
      exact getD_set_self s.store a _ ha
    · have heff : (EventLoopRemoveUserEvent s id ok).2 =
          [Effect.kqueueDelete (Int.ofNat id) .user] ++
          (if ok then [] else [Effect.logged]) := by
        rw [EventLoopRemoveUserEvent, h]
      intro fdv hc
      rw [heff] at hc
      cases ok <;> simp at hc
  · intro s id ok a out hWF h
    have hspec := removeEventList_spec s.store s.serverEvents s.serverEventsCount
      id a out hWF.1 h
    have ha : a < s.store.length := hWF.1.1 a hspec.2.2.1
    have heq : (EventLoopRemoveServer s id ok).1 =
        EventLoopDeactivateEvent
          { s with serverEvents := out, serverEventsCount := s.serverEventsCount - 1 }
          a := by
      rw [EventLoopRemoveServer, h]
    refine ⟨?_, by rw [heq]; rfl, ?_⟩
    · have hm := (removeServer_spec s id ok hWF).2 .server id (Or.inl rfl)
      rw [hm, membershipStep_removeServer, if_pos ⟨rfl, rfl⟩]
    · rw [heq]
      show (s.store.set a { getEvent s a with isActive := false }).getD a Event.null = _
      exact getD_set_self s.store a _ ha

/-- C5 witness: the membership fold and the deferred removal at concrete
inputs — add then remove a timer on a fresh reactor. -/
theorem claim_C5_witness :
    (EventLoopHasEvent
      ((runOps (EventLoopCreate 3).1
        [Op.addTimer 1 100 false true, Op.removeTimer 1 true]).getD (emptyEventLoop 0))
      1 .timer =
      membershipAfter .timer 1 [Op.addTimer 1 100 false true, Op.removeTimer 1 true]
        (EventLoopHasEvent (EventLoopCreate 3).1 1 .timer)) ∧
    (EventLoopHasEvent
      (EventLoopRemoveTimer
        (EventLoopAddTimer (EventLoopCreate 3).1 1 100 false true).1 1 true).1
      1 .timer = false) := by
  constructor
  · exact (claim_C5.1 [Op.addTimer 1 100 false true, Op.removeTimer 1 true]
      (EventLoopCreate 3).1 _ (by decide) (by decide)) .timer 1 (Or.inr (Or.inl rfl))
  · exact (claim_C5.2.1 (EventLoopAddTimer (EventLoopCreate 3).1 1 100 false true).1
      1 true 1 [none, none, none, none, none] (by decide) (by decide)).1

/-- A reactor whose peer-id counter (5) collides with a live peer id. -/
def c6State : EventLoop :=
  { emptyEventLoop 3 with
    serverEvents := [some 1], serverEventsCount := 1,
    serverPeerEvents := [some 0], serverPeerEventsCount := 1,
    store := [{ type := .serverPeer, id := 5, isActive := true, fd := 9, serverID := 1 },
      serverRecord],
    nextID := 5 }

/-- Once idTaken has been observed the skip-over loop never returns: the
flag is never reset, so every later iteration takes the increment branch. -/
theorem nextPeerIDLoop_sticky (s : EventLoop) (n : EventID) :
    ∀ fuel, nextPeerIDLoop s n true fuel = none := by
  intro fuel
  induction fuel generalizing n with
  | zero => rfl
  | succ f ih =>
    simp only [nextPeerIDLoop, Bool.true_or, if_true]
    exact ih _

/-- C6 (code bug): when the counter value is already in use by a live
peer, the id-assignment loop of the accept path never terminates: the
idTaken flag is set on the first scan and never cleared, so the loop
keeps incrementing nextID forever (modelled: none for every fuel), and
the whole accept dispatch diverges.  The claim that the allocation step
always terminates with a fresh id is right about the intent and wrong
about the code. -/
theorem claim_C6 :
    anyPeerWithID c6State 5 = true ∧
    (∀ fuel, nextPeerIDLoop c6State 5 false fuel = none) ∧
    EventLoopHandleServerEvent c6State 1 { clientFD := 9 } = none := by
  have hloop : ∀ fuel, nextPeerIDLoop c6State 5 false fuel = none := by
    intro fuel
    cases fuel with
    | zero => rfl
    | succ f =>
      have hany : anyPeerWithID c6State 5 = true := by decide
      simp only [nextPeerIDLoop, hany, Bool.false_or, if_true]
      exact nextPeerIDLoop_sticky c6State _ f
  refine ⟨by decide, hloop, ?_⟩
  have h65 : nextPeerIDLoop c6State c6State.nextID false idLoopFuel = none :=
    hloop idLoopFuel
  simp only [EventLoopHandleServerEvent, h65]
  norm_num

/-- A reactor with a registered server (fd 7) and a connected peer (fd 9)
on kqueue fd 3, about to be torn down. -/
def c7State : EventLoop :=
  { emptyEventLoop 3 with
    serverEvents := [some 1], serverEventsCount := 1,
    serverPeerEvents := [some 0], serverPeerEventsCount := 1,
    store := [activePeerRecord, serverRecord] }

/-- C7 (code bug): descriptor ownership is NOT exactly-once.  (1) On the
add_server path where the kqueue registration fails, the error label
first destroys the built event (closing fd 7) and then closes the raw fd
again: two closes of the same descriptor.  (2) EventLoopDestroy never
walks the peer registry, so a connected peer's descriptor (fd 9) is
closed zero times at teardown, even though the server's fd 7 and the
kqueue fd are closed. -/
theorem claim_C7 :
    ((EventLoopAddServer (EventLoopCreate 3).1 { id := 1, port := 5353 }
      { socketFD := 7, keventOk := false }).2.count (Effect.closeFD 7) = 2) ∧
    ((EventLoopDestroy c7State).count (Effect.closeFD 9) = 0) ∧
    Effect.closeFD 7 ∈ EventLoopDestroy c7State ∧
    Effect.closeFD 3 ∈ EventLoopDestroy c7State := by
  decide

/-- C8: a second add_X with an id already registered in that kind is
rejected up front: the reactor state is returned unchanged (the first
registration, its callbacks and its backend registration are untouched)
and the call's only effect is the diagnostic log — in particular no
descriptor is opened.  This holds for all three registration kinds. -/
theorem claim_C8 (s : EventLoop) (d : ServerDescriptor) (os : AddServerOS)
    (id1 : EventID) (tmo : Nat) (cb1 ok1 : Bool)
    (id2 : EventID) (cb2 ok2 : Bool) :
    (EventLoopHasEvent s d.id .server = true →
      EventLoopAddServer s d os = (s, [Effect.logged])) ∧
    (EventLoopHasEvent s id1 .timer = true →
      EventLoopAddTimer s id1 tmo cb1 ok1 = (s, [Effect.logged])) ∧
    (EventLoopHasEvent s id2 .user = true →
      EventLoopAddUserEvent s id2 cb2 ok2 = (s, [Effect.logged])) := by
  refine ⟨fun h => ?_, fun h => ?_, fun h => ?_⟩
  · rw [EventLoopAddServer, if_pos h]
  · rw [EventLoopAddTimer, if_pos h]
  · rw [EventLoopAddUserEvent, if_pos h]

/-- C8 witness: a duplicate timer registration on a fresh reactor. -/
theorem claim_C8_witness :
    EventLoopAddTimer (EventLoopAddTimer (EventLoopCreate 3).1 1 100 false true).1
      1 250 true true =
    ((EventLoopAddTimer (EventLoopCreate 3).1 1 100 false true).1, [Effect.logged]) :=
  (claim_C8 (EventLoopAddTimer (EventLoopCreate 3).1 1 100 false true).1
    { id := 9, port := 1 } { socketFD := -1 } 1 250 true true 9 false false).2.1
    (by decide)

/-- C9 counterexample: EventLoopCreate never checks the kqueue() result.
With a failing kqueue (-1) it still returns a reactor object whose
backend fd is -1: no failure is reported to the caller, and the internal
stop event silently failed to register (only a log) — refuting the claim
that the caller receives a failure and no usable reactor object is
produced. -/
theorem claim_C9_counterexample :
    (EventLoopCreate (-1)).1.kqueueFD = -1 ∧
    (EventLoopCreate (-1)).2 = [Effect.logged] ∧
    EventLoopHasUserEvent (EventLoopCreate (-1)).1 INTERNAL_EVENT_ID = false := by
  decide

/-- C9 (amended): when the OS multiplexor cannot be opened, create does
not report failure: it stores the failed descriptor (-1) unchecked and
still hands back a reactor object; the only trace of the failure is the
logged kevent error from the internal stop-event registration, which
therefore is absent from the user-event registry. -/
theorem claim_C9 (kq : Int) (h : kq = -1) :
    (EventLoopCreate kq).1.kqueueFD = -1 ∧
    (EventLoopCreate kq).2 = [Effect.logged] ∧
    EventLoopHasUserEvent (EventLoopCreate kq).1 INTERNAL_EVENT_ID = false := by
  subst h
  decide

/-- C9 witness: the amended behaviour at the concrete failing result. -/
theorem claim_C9_witness :
    (EventLoopCreate (-1)).1.kqueueFD = -1 ∧
    (EventLoopCreate (-1)).2 = [Effect.logged] ∧
    EventLoopHasUserEvent (EventLoopCreate (-1)).1 INTERNAL_EVENT_ID = false :=
  claim_C9 (-1) rfl

/-- The lookup fails exactly when the membership scan fails. -/
theorem findExistingAux_none (store : List Event) (id : EventID)
    (slots : List (Option Nat))
    (h : slots.any (slotMatches store id) = false) :
    findExistingAux store id slots = none := by
  induction slots with
  | nil => rfl
  | cons slot rest ih =>
    rw [List.any_cons, Bool.or_eq_false_iff] at h
    cases slot with
    | none => exact ih h.2
    | some a =>
      have h1 : ((store.getD a Event.null).id == id) = false := by
        have h2 := h.1
        rw [slotMatches] at h2
        exact h2
      rw [findExistingAux, if_neg (by simpa using h1)]
      exact ih h.2

/-- C10: triggering a user event whose id is not registered only logs a
diagnostic: no callback is invoked, no kqueue submission happens, and the
reactor state — all four registries, the deferred-free list, the
keepRunning flag — is returned bit-for-bit unchanged. -/
theorem claim_C10 (s : EventLoop) (id : EventID) (ok : Bool)
    (h : EventLoopHasUserEvent s id = false) :
    EventLoopTriggerUserEvent s id ok = (s, [Effect.logged]) := by
  have hfind : EventLoopFindExistingEvent s id .user = none :=
    findExistingAux_none s.store id s.userEvents h
  rw [EventLoopTriggerUserEvent, hfind]

/-- C10 witness: triggering an absent id on a fresh reactor. -/
theorem claim_C10_witness :
    EventLoopTriggerUserEvent (EventLoopCreate 3).1 7 true =
      ((EventLoopCreate 3).1, [Effect.logged]) :=
  claim_C10 (EventLoopCreate 3).1 7 true (by decide)

end Woodpeckers
